import Mathlib

/-!
Persona-Server: credential codec, password hasher, token issuer and the handlers

A shallow embedding of `handler/auth.go` and of the middleware of `main.go`.
Go strings are lists of characters, byte slices are lists of naturals below 256.
The library routines the source calls (`strings.Split`, `encoding/base64`,
`fmt.Sprintf`, `fmt.Sscanf`, `subtle.ConstantTimeCompare`, `regexp`) are modelled
on their Go implementations, restricted to the way the source calls them.
-/

namespace Persona

/-! ## Go values -/

/-- A Go string, as the sequence of its characters. -/
abbrev GoString := List Char

/-- A Go byte slice. -/
abbrev Bytes := List Nat

/-- Every element of the slice is a byte. -/
def IsBytes (bs : Bytes) : Prop := ∀ b ∈ bs, b < 256

instance (bs : Bytes) : Decidable (IsBytes bs) := by
  unfold IsBytes; infer_instance

/-- The errors the subsystem returns. Modelled from the spec: the declarations of
ErrInvaildHash and ErrIncompatibleVersion are not among the sources, decodeHash
returns them by name; the other errors are those of the libraries. -/
inductive Error
  /-- handler.ErrInvaildHash -/
  | ErrInvaildHash
  /-- handler.ErrIncompatibleVersion -/
  | ErrIncompatibleVersion
  /-- base64.CorruptInputError -/
  | CorruptInputError
  /-- io.EOF out of fmt.Sscanf: the input ends where a number has to start -/
  | EOF
  /-- io.ErrUnexpectedEOF out of fmt.Sscanf: the input ends where a literal
  character of the format has to be read -/
  | ErrUnexpectedEOF
  /-- the other errors of fmt.Sscanf, with their message -/
  | scanError (msg : String)
  /-- a failed read of crypto/rand -/
  | randError
  /-- an error wrapped by fmt.Errorf, with its prefix -/
  | wrapped (msg : String)
  deriving DecidableEq, Repr

instance instDecidableEqExcept {ε α : Type} [DecidableEq ε] [DecidableEq α] :
    DecidableEq (Except ε α)
  | .ok a, .ok b => if h : a = b then isTrue (by rw [h]) else isFalse (by simpa using h)
  | .error a, .error b => if h : a = b then isTrue (by rw [h]) else isFalse (by simpa using h)
  | .ok _, .error _ => isFalse (by simp)
  | .error _, .ok _ => isFalse (by simp)

/-! ## strings.Split -/

/-- The call strings.Split(s, sep) for a separator of one character: the
substrings between the occurrences of sep, in order. -/
def Split : GoString → Char → List GoString
  | [], _ => [[]]
  | c :: cs, sep =>
    if c = sep then [] :: Split cs sep
    else
      match Split cs sep with
      | [] => [[c]]
      | f :: fs => (c :: f) :: fs

/-! ## encoding/base64, RawStdEncoding -/

/-- The alphabet of base64.StdEncoding. -/
def encodeStd : GoString :=
  "ABCDEFGHIJKLMNOPQRSTUVWXYZabcdefghijklmnopqrstuvwxyz0123456789+/".toList

/-- The table enc.encode: the character of a 6-bit value. -/
def encodeChar (i : Nat) : Char := encodeStd.getD i 'A'

/-- The table enc.decodeMap: the 6-bit value of a character of the alphabet,
0xFF for every other character. -/
def decodeMap (c : Char) : Nat :=
  if encodeStd.indexOf c < 64 then encodeStd.indexOf c else 0xFF

/-- The method RawStdEncoding.EncodeToString: three bytes make four characters,
a rest of one or two bytes makes two or three characters, no padding. -/
def EncodeToString : Bytes → GoString
  | b0 :: b1 :: b2 :: rest =>
    let val := b0 <<< 16 ||| b1 <<< 8 ||| b2
    encodeChar (val >>> 18 &&& 0x3F) :: encodeChar (val >>> 12 &&& 0x3F) ::
      encodeChar (val >>> 6 &&& 0x3F) :: encodeChar (val &&& 0x3F) :: EncodeToString rest
  | [b0, b1] =>
    let val := b0 <<< 16 ||| b1 <<< 8
    [encodeChar (val >>> 18 &&& 0x3F), encodeChar (val >>> 12 &&& 0x3F),
      encodeChar (val >>> 6 &&& 0x3F)]
  | [b0] =>
    let val := b0 <<< 16
    [encodeChar (val >>> 18 &&& 0x3F), encodeChar (val >>> 12 &&& 0x3F)]
  | [] => []

/-- The loop of Encoding.Decode over decodeQuantum, for an encoding without
padding and not strict. The second argument is dbuf, the 6-bit values read for
the quantum at hand; the third is what was written to dst so far. Carriage
returns and line feeds are skipped, any other character outside the alphabet is
corrupt input, and so is an end of input after one character of a quantum. -/
def decodeLoop : GoString → List Nat → Bytes → Except Error Bytes
  | [], dbuf, dst =>
    match dbuf with
    | [] => .ok dst
    | [d0, d1] =>
      let val := d0 <<< 18 ||| d1 <<< 12
      .ok (dst ++ [val >>> 16 % 256])
    | [d0, d1, d2] =>
      let val := d0 <<< 18 ||| d1 <<< 12 ||| d2 <<< 6
      .ok (dst ++ [val >>> 16 % 256, val >>> 8 % 256])
    | _ => .error .CorruptInputError
  | c :: cs, dbuf, dst =>
    if decodeMap c ≠ 0xFF then
      match dbuf with
      | [d0, d1, d2] =>
        let val := d0 <<< 18 ||| d1 <<< 12 ||| d2 <<< 6 ||| decodeMap c
        decodeLoop cs [] (dst ++ [val >>> 16 % 256, val >>> 8 % 256, val % 256])
      | _ => decodeLoop cs (dbuf ++ [decodeMap c]) dst
    else if c = '\n' ∨ c = '\r' then decodeLoop cs dbuf dst
    else .error .CorruptInputError

/-- The method RawStdEncoding.DecodeString. -/
def DecodeString (s : GoString) : Except Error Bytes := decodeLoop s [] []

/-! ## fmt.Sprintf and fmt.Sscanf, the verb %d -/

/-- The decimal digit of a value below ten. -/
def digitChar (d : Nat) : Char := Char.ofNat (48 + d)

/-- The loop of strconv.formatBits in base ten: the digits of u, the last one
first, put in front of what is already written. -/
def formatBits : Nat → Nat → GoString → GoString
  | 0, _, acc => acc
  | fuel + 1, u, acc =>
    if 10 ≤ u then formatBits fuel (u / 10) (digitChar (u % 10) :: acc)
    else digitChar u :: acc

/-- What %d prints for an unsigned value. -/
def FormatUint (u : Nat) : GoString := formatBits (u + 1) u []

/-- What %d prints for a signed value. -/
def FormatInt (i : Int) : GoString :=
  if i < 0 then '-' :: FormatUint i.natAbs else FormatUint i.natAbs

/-- The characters accept(digits) takes for the verb %d. -/
def isDigit (c : Char) : Bool := "0123456789".toList.contains c

/-- The value strconv reads from a token of decimal digits. -/
def parseDigits (tok : GoString) : Nat :=
  tok.foldl (fun n c => n * 10 + (c.toNat - 48)) 0

/-- The table of fmt.isSpace. -/
def isSpace (r : Char) : Bool :=
  let x := r.toNat
  (0x0009 ≤ x ∧ x ≤ 0x000d) ∨ x = 0x0020 ∨ x = 0x0085 ∨ x = 0x00a0 ∨ x = 0x1680 ∨
    (0x2000 ≤ x ∧ x ≤ 0x200a) ∨ (0x2028 ≤ x ∧ x ≤ 0x2029) ∨ x = 0x202f ∨ x = 0x205f ∨
    x = 0x3000

/-- The method ss.SkipSpace of a scan where a newline is not a space (Sscanf):
spaces are dropped, a line feed is an error. -/
def SkipSpace : GoString → Except Error GoString
  | [] => .ok []
  | r :: rest =>
    if r = '\r' ∧ rest.head? = some '\n' then SkipSpace rest
    else if r = '\n' then .error (.scanError "unexpected newline")
    else if isSpace r then SkipSpace rest
    else .ok (r :: rest)

/-- The method ss.scanNumber: at least one digit, then every digit that follows;
an input that has ended is io.EOF. Returns the value strconv reads from the
digits and the input left. -/
def scanNumber (input : GoString) : Except Error (Nat × GoString) :=
  match input with
  | [] => .error .EOF
  | c :: _ =>
    if isDigit c then .ok (parseDigits (input.takeWhile isDigit), input.dropWhile isDigit)
    else .error (.scanError "expected integer")

/-- The method ss.scanUint for %d into an unsigned target of bitSize bits. -/
def scanUint (bitSize : Nat) (input : GoString) : Except Error (Nat × GoString) :=
  match SkipSpace input with
  | .error e => .error e
  | .ok [] => .error .EOF
  | .ok (c :: cs) =>
    match scanNumber (c :: cs) with
    | .error e => .error e
    | .ok (n, rest) =>
      if 2 ^ 64 ≤ n then .error (.scanError "value out of range")
      else if 2 ^ bitSize ≤ n then .error (.scanError "unsigned integer overflow")
      else .ok (n, rest)

/-- The method ss.scanInt for %d into a signed target of bitSize bits: an
optional sign, then the number. -/
def scanInt (bitSize : Nat) (input : GoString) : Except Error (Int × GoString) :=
  match SkipSpace input with
  | .error e => .error e
  | .ok [] => .error .EOF
  | .ok (c :: cs) =>
    let neg := decide (c = '-')
    let body := if c = '+' ∨ c = '-' then cs else c :: cs
    match scanNumber body with
    | .error e => .error e
    | .ok (n, rest) =>
      let i : Int := if neg then -(n : Int) else (n : Int)
      if i < -(2 ^ 63 : Int) ∨ (2 ^ 63 : Int) ≤ i then .error (.scanError "value out of range")
      else if i < -(2 ^ (bitSize - 1) : Int) ∨ (2 ^ (bitSize - 1) : Int) ≤ i then
        .error (.scanError "integer overflow")
      else .ok (i, rest)

/-- The kind of a pointer handed to Sscanf. -/
inductive ScanArg
  /-- a signed integer of the given size -/
  | int (bitSize : Nat)
  /-- an unsigned integer of the given size -/
  | uint (bitSize : Nat)
  deriving DecidableEq, Repr

/-- The method ss.scanOne for the verb %d. -/
def scanOne (arg : ScanArg) (input : GoString) : Except Error (Int × GoString) :=
  match arg with
  | .int bitSize => scanInt bitSize input
  | .uint bitSize =>
    match scanUint bitSize input with
    | .error e => .error e
    | .ok (n, rest) => .ok ((n : Int), rest)

/-- The function fmt.Sscanf for a format made of literal characters and of %d
verbs: a literal character has to be the next character of the input, a verb
fills the next operand. The values are returned in the order of the operands;
input left over after the format is not an error. -/
def Sscanf : GoString → GoString → List ScanArg → Except Error (List Int)
  | _, [], args =>
    match args with
    | [] => .ok []
    | _ :: _ => .error (.scanError "too many operands")
  | input, f :: fmt, args =>
    if f = '%' then
      match fmt with
      | [] => .error (.scanError "too few operands for format")
      | _verb :: fmt' =>
        match args with
        | [] => .error (.scanError "too few operands for format")
        | a :: as =>
          match scanOne a input with
          | .error e => .error e
          | .ok (v, rest) =>
            match Sscanf rest fmt' as with
            | .error e => .error e
            | .ok vs => .ok (v :: vs)
    else
      match input with
      | [] => .error .ErrUnexpectedEOF
      | r :: rest =>
        if f = r then Sscanf rest fmt args
        else .error (.scanError "input does not match format")

/-- An operand of fmt.Sprintf. -/
inductive PrintArg
  /-- a signed integer -/
  | int (i : Int)
  /-- an unsigned integer -/
  | uint (u : Nat)
  /-- a string -/
  | str (s : GoString)
  deriving DecidableEq, Repr

/-- What a verb prints for its operand: %d the decimal digits, %s the string. -/
def printArg : PrintArg → GoString
  | .int i => FormatInt i
  | .uint u => FormatUint u
  | .str s => s

/-- The function fmt.Sprintf for a format made of literal characters and of the
verbs %d and %s, each verb with an operand of its kind. -/
def Sprintf : GoString → List PrintArg → GoString
  | [], _ => []
  | f :: fmt, args =>
    if f = '%' then
      match fmt, args with
      | _verb :: fmt', a :: as => printArg a ++ Sprintf fmt' as
      | _, _ => "%!(NOVERB)".toList
    else f :: Sprintf fmt args

/-! ## crypto/subtle -/

/-- The function subtle.ConstantTimeByteEq: 1 when the two bytes are equal, 0
otherwise, computed as (uint32(x^y) - 1) >> 31. -/
def ConstantTimeByteEq (x y : Nat) : Nat :=
  (((x ^^^ y) % 2 ^ 32 + 2 ^ 32 - 1) % 2 ^ 32) >>> 31

/-- The function subtle.ConstantTimeCompare: 0 at once when the lengths differ,
else the bytes are xor-ed pairwise, the results or-ed together, and the answer
is whether that is zero. -/
def ConstantTimeCompare (x y : Bytes) : Nat :=
  if x.length ≠ y.length then 0
  else ConstantTimeByteEq ((List.zip x y).foldl (fun v ab => (v ||| (ab.1 ^^^ ab.2)) % 256) 0) 0

/-! ## regexp -/

/-- A compiled regular expression. -/
inductive Regexp
  /-- the empty expression -/
  | empty
  /-- one character of a class -/
  | cls (p : Char → Bool)
  /-- one expression after the other -/
  | cat (a b : Regexp)
  /-- one expression or the other -/
  | alt (a b : Regexp)
  /-- zero or more repetitions -/
  | star (a : Regexp)

/-- One or more repetitions, the operator +. -/
def Regexp.plus (a : Regexp) : Regexp := .cat a (.star a)

/-- The repetitions of a matcher f from s on: what is left of s after zero or
more rounds of f, every round taking at least one character. -/
def starRun (f : GoString → List GoString) : Nat → GoString → List GoString
  | 0, s => [s]
  | n + 1, s => s :: ((f s).filter (fun t => t.length < s.length)).flatMap (starRun f n)

/-- Every way the expression matches at the start of s, as what is left of s
after the match. -/
def Regexp.run : Regexp → GoString → List GoString
  | .empty, s => [s]
  | .cls _, [] => []
  | .cls p, c :: cs => if p c then [cs] else []
  | .cat a b, s => (a.run s).flatMap b.run
  | .alt a b, s => a.run s ++ b.run s
  | .star a, s => starRun a.run s.length s

/-- The method Regexp.Match: whether the text holds a match of the expression,
starting anywhere. -/
def Regexp.Match (re : Regexp) (b : GoString) : Bool :=
  b.tails.any (fun t => !(re.run t).isEmpty)

/-- The characters of the class a-zA-Z0-9_. -/
def isWordChar (c : Char) : Bool :=
  ('a' ≤ c ∧ c ≤ 'z') ∨ ('A' ≤ c ∧ c ≤ 'Z') ∨ ('0' ≤ c ∧ c ≤ '9') ∨ c = '_'

/-- The pattern of the source, [^a-zA-Z0-9_]+, as regexp.MustCompile reads it:
one or more characters outside the class. -/
def useridPattern : Regexp := Regexp.plus (.cls (fun c => !isWordChar c))

/-! ## golang.org/x/crypto/argon2 -/

/-- The constant argon2.Version. -/
def argon2Version : Nat := 0x13

/-- What stops a goroutine instead of a return. -/
inductive Panic
  /-- argon2: number of rounds too small -/
  | roundsTooSmall
  /-- argon2: parallelism degree too low -/
  | parallelismTooLow
  /-- runtime error: index out of range -/
  | indexOutOfRange (index length : Nat)
  /-- runtime error: nil pointer dereference -/
  | nilDereference
  deriving DecidableEq, Repr

/-- The key derivation inside Argon2id, left abstract: from the password, the
salt, the time, the memory, the threads and the key length to the i-th byte of
the key. -/
abbrev Kdf := Bytes → Bytes → Nat → Nat → Nat → Nat → Nat → Nat

/-- The function argon2.IDKey: it panics when time or threads is below one; with
a key length of zero it panics too, on the nil digest blake2b.New(0, nil) leaves
to extractKey; otherwise it returns a slice of keyLen bytes that depends on its
arguments only. -/
def IDKey (kdf : Kdf) (password salt : Bytes) (time memory threads keyLen : Nat) :
    Except Panic Bytes :=
  if time < 1 then .error .roundsTooSmall
  else if threads < 1 then .error .parallelismTooLow
  else if keyLen < 1 then .error .nilDereference
  else .ok ((List.range keyLen).map (fun i => kdf password salt time memory threads keyLen i % 256))

/-- The conversion of a string to its bytes, in UTF-8. -/
def toBytes (s : GoString) : Bytes :=
  s.flatMap (fun c => (String.utf8EncodeChar c).map UInt8.toNat)

/-! ## handler/auth.go: the credential codec and the password hasher -/

/-- Modelled from the spec: the declaration of handler.Argon2Params is not among
the sources. The fields are those handler/auth.go reads and writes: memory cost,
time cost, parallelism, salt length and key length, all uint32 but for
parallelism, a uint8, which are the types argon2.IDKey and generateRandomBytes
take. -/
structure Argon2Params where
  /-- the memory, in KiB -/
  memory : Nat
  /-- the number of passes -/
  iterations : Nat
  /-- the number of threads -/
  parallelism : Nat
  /-- the length of the salt -/
  saltLength : Nat
  /-- the length of the key -/
  keyLength : Nat
  deriving DecidableEq, Repr

/-- The fields are within their Go types. -/
def Argon2Params.InRange (p : Argon2Params) : Prop :=
  p.memory < 2 ^ 32 ∧ p.iterations < 2 ^ 32 ∧ p.parallelism < 2 ^ 8 ∧
    p.saltLength < 2 ^ 32 ∧ p.keyLength < 2 ^ 32

instance (p : Argon2Params) : Decidable p.InRange := by
  unfold Argon2Params.InRange; infer_instance

/-- The function generateRandomBytes: a buffer of n bytes filled by rand.Read.
The argument rand is what the random source does at this call: it fails, or it
delivers the bytes of a stream. -/
def generateRandomBytes (rand : Except Error (Nat → Nat)) (n : Nat) : Except Error Bytes :=
  match rand with
  | .error e => .error e
  | .ok stream => .ok ((List.range n).map (fun i => stream i % 256))

/-- The string generatePassword builds with fmt.Sprintf from the parameters, the
encoded salt and the encoded hash. -/
def encodedHashOf (p : Argon2Params) (b64Salt b64Hash : GoString) : GoString :=
  Sprintf "$argon2id$v=%d$m=%d,t=%d,p=%d$%s$%s".toList
    [.int argon2Version, .uint p.memory, .uint p.iterations, .uint p.parallelism,
      .str b64Salt, .str b64Hash]

/-- The function generatePassword: the encoded hash and a nil error, or an empty
string and the error of the random source; a panic of argon2.IDKey goes through. -/
def generatePassword (kdf : Kdf) (rand : Except Error (Nat → Nat)) (password : GoString)
    (p : Argon2Params) : Except Panic (GoString × Option Error) :=
  match generateRandomBytes rand p.saltLength with
  | .error err => .ok ([], some err)
  | .ok salt =>
    match IDKey kdf (toBytes password) salt p.iterations p.memory p.parallelism p.keyLength with
    | .error pn => .error pn
    | .ok hash =>
      let b64Salt := EncodeToString salt
      let b64Hash := EncodeToString hash
      .ok (encodedHashOf p b64Salt b64Hash, none)

/-- The four values decodeHash returns; none stands for nil. -/
structure Decoded where
  /-- the parameters -/
  p : Option Argon2Params
  /-- the salt -/
  salt : Option Bytes
  /-- the hash -/
  hash : Option Bytes
  /-- the error -/
  err : Option Error
  deriving DecidableEq, Repr

/-- The return of decodeHash on a failure: nil, nil, nil and the error. -/
def Decoded.fail (e : Error) : Decoded := ⟨none, none, none, some e⟩

/-- The function decodeHash. -/
def decodeHash (encodedHash : GoString) : Decoded :=
  let vals := Split encodedHash '$'
  if vals.length ≠ 6 then .fail .ErrInvaildHash
  else
    match Sscanf (vals.getD 2 []) "v=%d".toList [.int 64] with
    | .error err => .fail err
    | .ok vs =>
      let version : Int := vs.getD 0 0
      if version ≠ (argon2Version : Int) then .fail .ErrIncompatibleVersion
      else
        match Sscanf (vals.getD 3 []) "m=%d,t=%d,p=%d".toList [.uint 32, .uint 32, .uint 8] with
        | .error err => .fail err
        | .ok ps =>
          match DecodeString (vals.getD 4 []) with
          | .error err => .fail err
          | .ok salt =>
            match DecodeString (vals.getD 5 []) with
            | .error err => .fail err
            | .ok hash =>
              ⟨some
                { memory := (ps.getD 0 0).toNat
                  iterations := (ps.getD 1 0).toNat
                  parallelism := (ps.getD 2 0).toNat
                  saltLength := salt.length % 2 ^ 32
                  keyLength := hash.length % 2 ^ 32 },
                some salt, some hash, none⟩

/-- The function comparePasswordAndHash: the match and a nil error, or false and
the error of decodeHash; a panic of argon2.IDKey goes through. -/
def comparePasswordAndHash (kdf : Kdf) (password encodedHash : GoString) :
    Except Panic (Bool × Option Error) :=
  let d := decodeHash encodedHash
  match d.err with
  | some err => .ok (false, some err)
  | none =>
    match d.p with
    | none => .error .nilDereference
    | some p =>
      match IDKey kdf (toBytes password) (d.salt.getD []) p.iterations p.memory p.parallelism
          p.keyLength with
      | .error pn => .error pn
      | .ok otherHash =>
        if ConstantTimeCompare (d.hash.getD []) otherHash = 1 then .ok (true, none)
        else .ok (false, none)

/-- The function CheckRegexp, the pattern given as compiled. -/
def CheckRegexp (reg : Regexp) (str : GoString) : Bool := reg.Match str

/-- The function strings.ToLower on the letters A to Z, which are the only upper
case letters left after the check of the identifier. -/
def ToLower (s : GoString) : GoString := s.map Char.toLower

/-! ## handler/auth.go: the storage -/

/-- A row of table users. -/
structure User where
  /-- column user_id -/
  user_id : GoString
  /-- column email -/
  email : GoString
  /-- column screen_name -/
  screen_name : GoString
  /-- column created_at -/
  created_at : GoString
  /-- column updated_at -/
  updated_at : GoString
  /-- column password -/
  password : GoString
  deriving DecidableEq, Repr

/-- Modelled from the spec: the declaration of handler.Handler is not among the
sources; it holds the database h.DB, here the table users behind it, the storage
collaborator of the specification. -/
structure Handler where
  /-- whether a statement reaches the database -/
  up : Bool
  /-- the rows of table users, in the order a query returns them -/
  users : List User
  deriving DecidableEq, Repr

/-- The structure jwt.StandardClaims, the fields GenerateJWTToken sets. -/
structure StandardClaims where
  /-- the claim aud -/
  Audience : GoString
  /-- the claim exp, in Unix seconds -/
  ExpiresAt : Int
  /-- the claim iat, in Unix seconds -/
  IssuedAt : Int
  /-- the claim nbf, in Unix seconds -/
  NotBefore : Int
  deriving DecidableEq, Repr

/-- A parsed RSA key. -/
structure RSAKey where
  /-- the key material -/
  material : Bytes
  deriving DecidableEq, Repr

/-- A token as jwt.Parse builds it. -/
structure Token where
  /-- whether token.Method is a *jwt.SigningMethodRSA -/
  methodIsRSA : Bool
  /-- the header alg -/
  alg : GoString
  /-- the claims -/
  claims : StandardClaims
  /-- the field Valid -/
  Valid : Bool
  deriving DecidableEq, Repr

/-- What surrounds the handlers: the key derivation, the random source, the
clock, the files, the key parsers and the signatures of jwt-go, and the
constraints of table users, which the source does not show. -/
structure Env where
  /-- the key derivation inside argon2.IDKey -/
  kdf : Kdf
  /-- what one call of rand.Read does -/
  rand : Except Error (Nat → Nat)
  /-- the readings of time.Now() during the call, in order, in nanoseconds since
  the Unix epoch -/
  clock : Nat → Int
  /-- the method Time.Format for time.RFC3339Nano -/
  formatRFC3339Nano : Int → GoString
  /-- the function ioutil.ReadFile -/
  readFile : GoString → Except Error GoString
  /-- the function jwt.ParseRSAPrivateKeyFromPEM -/
  parsePrivateKey : GoString → Except Error RSAKey
  /-- the function jwt.ParseRSAPublicKeyFromPEM -/
  parsePublicKey : GoString → Except Error RSAKey
  /-- the method Token.SignedString of a token of method RS512 -/
  signRS512 : StandardClaims → RSAKey → Except Error GoString
  /-- the first step of jwt.Parse: the token a string decodes to -/
  parseUnverified : GoString → Except Error Token
  /-- the last step of jwt.Parse: whether the claims and the signature of the
  token string are valid under a key -/
  verify : GoString → RSAKey → Bool
  /-- whether table users takes one more row -/
  admits : List User → User → Bool

/-- Modelled from the spec: the declaration of handler.LoginParams is not among
the sources; a login request carries an identifier and a password, the two
fields Login reads. -/
structure LoginParams where
  /-- the identifier, a user_id or an email -/
  UserName : GoString
  /-- the password -/
  Password : GoString
  deriving DecidableEq, Repr

/-- Modelled from the spec: the declaration of handler.RegisterParams is not
among the sources; a registration request carries an identifier, an email, a
password and a display name, the fields Register and InsertUserData read. -/
structure RegisterParams where
  /-- the identifier -/
  UserID : GoString
  /-- the email -/
  EMail : GoString
  /-- the password, later the encoded hash -/
  Password : GoString
  /-- the display name -/
  ScreenName : GoString
  deriving DecidableEq, Repr

/-- The part of echo.Context the handlers use: what c.Bind delivers and what
c.Validate says of the bound data. -/
structure Context (α : Type) where
  /-- the outcome of c.Bind -/
  bind : Except Error α
  /-- the outcome of c.Validate, none for nil -/
  validate : α → Option Error

/-- What a handler answers. -/
inductive Reply
  /-- the call c.JSON(code, body) -/
  | json (code : Nat) (body : List (String × GoString))
  /-- a returned *echo.HTTPError, answered by echo with its code -/
  | httpError (code : Nat)
  /-- the call of the next handler with the token set -/
  | next (token : Token)
  deriving DecidableEq, Repr

/-- The HTTP status of an answer; the next handler decides its own. -/
def Reply.status : Reply → Option Nat
  | .json code _ => some code
  | .httpError code => some code
  | .next _ => none

/-- The method CheckUniqueUserID: the sum over the rows of 1 where user_id is
the argument, read as 0 on an empty table; true when it is 0. -/
def CheckUniqueUserID (h : Handler) (UserID : GoString) : Bool × Option Error :=
  if h.up = false then
    (false, some (.wrapped "Error CheckUniqueUserID(). Failed to select user data"))
  else
    let IsUnique := (h.users.map (fun u => if u.user_id = UserID then 1 else 0)).sum
    if IsUnique = 0 then (true, none) else (false, none)

/-- The method CheckUniqueEmail: its statement compares column user_id, not
column email, with the argument. -/
def CheckUniqueEmail (h : Handler) (EMail : GoString) : Bool × Option Error :=
  if h.up = false then
    (false, some (.wrapped "Error CheckUniqueEMail(). Failed to select user data"))
  else
    let IsUnique := (h.users.map (fun u => if u.user_id = EMail then 1 else 0)).sum
    if IsUnique = 0 then (true, none) else (false, none)

/-- The method InsertUserData: one more row, unless the statement fails. -/
def InsertUserData (env : Env) (h : Handler) (NewUser : RegisterParams) :
    Handler × Option Error :=
  let Now := env.formatRFC3339Nano (env.clock 0)
  let row : User :=
    ⟨NewUser.UserID, NewUser.EMail, NewUser.ScreenName, Now, Now, NewUser.Password⟩
  if h.up = false ∨ env.admits h.users row = false then
    (h, some (.wrapped "Error InsertUserData(). Failed to insert user data"))
  else ({ h with users := h.users ++ [row] }, none)

/-- The method RoadPasswordAndUserID: the first row whose user_id or email is the
argument. The error of Scan is dropped: the condition tests the error of
sqlx.Named, which is nil, so with no row the two strings come back empty and the
error nil. -/
def RoadPasswordAndUserID (h : Handler) (RequestUserID : GoString) :
    GoString × GoString × Option Error :=
  let row :=
    if h.up then h.users.find? (fun u => u.user_id = RequestUserID ∨ u.email = RequestUserID)
    else none
  match row with
  | some u => (u.user_id, u.password, none)
  | none => ([], [], none)

/-- The method UpdateAt: updated_at is set on the rows of the user. -/
def UpdateAt (env : Env) (h : Handler) (RequestUserID : GoString) : Handler × Option Error :=
  let Now := env.formatRFC3339Nano (env.clock 0)
  if h.up = false then (h, some (.wrapped "Error UpdateAt(). Failed to update user data"))
  else
    ({ h with users := h.users.map (fun u =>
        if u.user_id = RequestUserID then { u with updated_at := Now } else u) }, none)

/-! ## handler/auth.go: the token issuer -/

/-- The constant time.Second, in nanoseconds. -/
def Second : Int := 1000000000

/-- The constant time.Minute, in nanoseconds. -/
def Minute : Int := 60 * Second

/-- The method Time.Unix: the seconds since the epoch, rounded down. -/
def Unix (t : Int) : Int := t / 1000000000

/-- The function LoadPrivateKey. -/
def LoadPrivateKey (env : Env) : Except Error RSAKey :=
  match env.readFile "private-key.pem".toList with
  | .error _ => .error (.wrapped "failed to road private key")
  | .ok Key =>
    match env.parsePrivateKey Key with
    | .error _ => .error (.wrapped "failed to parse Privatekey")
    | .ok PrivateKey => .ok PrivateKey

/-- The claims GenerateJWTToken hands to jwt.NewWithClaims. The fields are
evaluated in the order they are written, each with a reading of its own of
time.Now(): ExpiresAt with the first, IssuedAt with the second, NotBefore with
the third. -/
def tokenClaims (clock : Nat → Int) (UserID : GoString) : StandardClaims :=
  { ExpiresAt := Unix (clock 0 + Minute * 5)
    IssuedAt := Unix (clock 1)
    NotBefore := Unix (clock 2 + Second * 5)
    Audience := UserID }

/-- The function GenerateJWTToken, the clock being that of the call. -/
def GenerateJWTToken (env : Env) (clock : Nat → Int) (UserID : GoString) :
    Except Error GoString :=
  match LoadPrivateKey env with
  | .error _ => .error (.wrapped "LoadPrivateKey()")
  | .ok PrivateKey =>
    match env.signRS512 (tokenClaims clock UserID) PrivateKey with
    | .error _ => .error (.wrapped "failed to sign string")
    | .ok t => .ok t

/-! ## handler/auth.go: the handlers -/

/-- The method Handler.Login. -/
def Login (h : Handler) (env : Env) (c : Context LoginParams) :
    Except Panic (Reply × Handler) :=
  match c.bind with
  | .error _ => .ok (.httpError 500, h)
  | .ok RequestData =>
    if (c.validate RequestData).isSome ∧ CheckRegexp useridPattern RequestData.UserName = true
    then .ok (.httpError 401, h)
    else
      let (UserID, Password, _) := RoadPasswordAndUserID h RequestData.UserName
      match comparePasswordAndHash env.kdf RequestData.Password Password with
      | .error pn => .error pn
      | .ok (_, some _) => .ok (.httpError 500, h)
      | .ok (false, none) => .ok (.json 401 [("status_code", "401".toList)], h)
      | .ok (true, none) =>
        match UpdateAt env h UserID with
        | (h1, some _) => .ok (.json 500 [("status_code", "500".toList)], h1)
        | (h1, none) =>
          match GenerateJWTToken env (fun k => env.clock (k + 1)) UserID with
          | .error _ => .ok (.json 500 [("status_code", "500".toList)], h1)
          | .ok Token => .ok (.json 200 [("token", Token)], h1)

/-- The parameters Register hashes with. -/
def registerParams : Argon2Params :=
  { memory := 64 * 1024, iterations := 3, parallelism := 2, saltLength := 16, keyLength := 32 }

/-- The method Handler.Register. -/
def Register (h : Handler) (env : Env) (c : Context RegisterParams) :
    Except Panic (Reply × Handler) :=
  match c.bind with
  | .error _ => .ok (.httpError 500, h)
  | .ok RequestData =>
    if (c.validate RequestData).isSome then
      .ok (.json 400 [("status_code", "400".toList), ("body", "invaild request".toList)], h)
    else if CheckRegexp useridPattern RequestData.UserID = true then
      .ok (.json 400 [("status_code", "400".toList), ("body", "invaild userid".toList)], h)
    else
      match CheckUniqueUserID h (ToLower RequestData.UserID) with
      | (_, some _) => .ok (.json 500 [("status_code", "500".toList)], h)
      | (false, none) =>
        .ok (.json 409 [("status_code", "409".toList), ("body", "conflict userid".toList)], h)
      | (true, none) =>
        match CheckUniqueEmail h RequestData.EMail with
        | (_, some _) => .ok (.json 500 [("status_code", "500".toList)], h)
        | (false, none) =>
          .ok (.json 409
            [("status_code", "409".toList), ("body", "conflict mail address".toList)], h)
        | (true, none) =>
          match generatePassword env.kdf env.rand RequestData.Password registerParams with
          | .error pn => .error pn
          | .ok (_, some _) => .ok (.httpError 500, h)
          | .ok (Password, none) =>
            let NewUser : RegisterParams :=
              { UserID := ToLower RequestData.UserID, EMail := RequestData.EMail,
                Password := Password, ScreenName := [] }
            match InsertUserData env h NewUser with
            | (h1, some _) => .ok (.json 500 [("status_code", "500".toList)], h1)
            | (h1, none) =>
              .ok (.json 201 [("status_code", "201".toList),
                ("account_url", "/users/".toList ++ NewUser.UserID ++ "/".toList)], h1)

/-! ## main.go: the middleware -/

/-- The function LookupPublicKey. -/
def LookupPublicKey (env : Env) : Except Error RSAKey :=
  match env.readFile "public-key.pem".toList with
  | .error err => .error err
  | .ok Key => env.parsePublicKey Key

/-- The function jwt.Parse: the token of the string, the key of the key
function, then the validation; the token comes back valid and without an error
only when all three go through. -/
def jwtParse (env : Env) (tokenString : GoString) (keyFunc : Token → Except Error RSAKey) :
    Option Token × Option Error :=
  match env.parseUnverified tokenString with
  | .error err => (none, some err)
  | .ok token =>
    match keyFunc { token with Valid := false } with
    | .error _ => (some { token with Valid := false }, some (.wrapped "ValidationError"))
    | .ok key =>
      if env.verify tokenString key then (some { token with Valid := true }, none)
      else (some { token with Valid := false }, some (.wrapped "ValidationError"))

/-- The middleware JWTAuthentication, on the value of the header Authorization
(empty when the header is absent); the next handler is the answer next. An index
past the end of the split header is a panic. -/
def JWTAuthentication (env : Env) (AuthorizationHeader : GoString) : Except Panic Reply :=
  let SplitAuthorization := Split AuthorizationHeader ' '
  match SplitAuthorization[0]? with
  | none => .error (.indexOutOfRange 0 SplitAuthorization.length)
  | some scheme =>
    if scheme ≠ "Bearer".toList then .ok (.httpError 401)
    else
      match SplitAuthorization[1]? with
      | none => .error (.indexOutOfRange 1 SplitAuthorization.length)
      | some tokenString =>
        match jwtParse env tokenString (fun token =>
            if token.methodIsRSA = false then .error (.wrapped "Unexpected signing method")
            else LookupPublicKey env) with
        | (_, some _) => .ok (.httpError 401)
        | (none, none) => .error .nilDereference
        | (some token, none) =>
          if token.Valid = false then .ok (.httpError 401) else .ok (.next token)

/-! ## Notions the statements use -/

/-- The input left after a number does not go on with a digit. -/
def NoDigitAhead (rest : GoString) : Prop := ∀ c ∈ rest.head?, isDigit c = false

/-- The fourth field of an encoded hash: the three cost parameters. -/
def paramField (p : Argon2Params) : GoString :=
  'm' :: '=' :: (FormatUint p.memory ++ ',' :: 't' :: '=' :: (FormatUint p.iterations ++
    ',' :: 'p' :: '=' :: FormatUint p.parallelism))

/-- Every character of the string is of the base64 alphabet. -/
def InAlphabet (s : GoString) : Prop := ∀ c ∈ s, c ∈ encodeStd

/-- The string without its carriage returns and line feeds. -/
def stripNewlines (s : GoString) : GoString := s.filter (fun c => !(c = '\n' ∨ c = '\r'))

/-- Valid unpadded standard base64: every character is of the alphabet, and the
length is not one more than a multiple of four. -/
def ValidRawStd (s : GoString) : Prop := (∀ c ∈ s, c ∈ encodeStd) ∧ s.length % 4 ≠ 1

instance (s : GoString) : Decidable (ValidRawStd s) := by
  unfold ValidRawStd; infer_instance

/-- The policy the specification gives for an identifier, the expression
^[a-zA-Z0-9_]+$, without its two anchors: one or more characters of the class. -/
def useridPolicy : Regexp := Regexp.plus (.cls isWordChar)

/-- Whether the expression matches the whole of the string, which is what an
expression between the anchors ^ and $ asks. -/
def Regexp.MatchWhole (re : Regexp) (s : GoString) : Bool := (re.run s).contains []

/-- The answer of Register to an identifier its check refuses. -/
def invaildUserid : Reply :=
  .json 400 [("status_code", "400".toList), ("body", "invaild userid".toList)]

/-- A stored account, for the examples: its hash is the byte 65 under the salt 65. -/
def alice : User :=
  ⟨"alice".toList, "alice@example.com".toList, [], "2020-01-01T00:00:00Z".toList,
    "2020-01-01T00:00:00Z".toList, "$argon2id$v=19$m=8,t=1,p=1$QQ$QQ".toList⟩

/-- An environment for the examples: a key derivation that returns the index of
each byte, a random source that counts, a clock that ticks once a reading. -/
def exampleEnv : Env :=
  { kdf := fun _ _ _ _ _ _ i => i
    rand := .ok (fun i => i)
    clock := fun k => 1600000000000000000 + k
    formatRFC3339Nano := fun _ => "2020-09-13T12:26:40Z".toList
    readFile := fun _ => .ok []
    parsePrivateKey := fun _ => .ok ⟨[]⟩
    parsePublicKey := fun _ => .ok ⟨[]⟩
    signRS512 := fun c _ => .ok c.Audience
    parseUnverified := fun _ => .error (.wrapped "token contains an invalid number of segments")
    verify := fun _ _ => false
    admits := fun _ _ => true }

/-- The row Register stores in the example environment for the identifier Bob,
the email of alice and the password pw. -/
def bobRow : User :=
  ⟨"bob".toList, "alice@example.com".toList, [], "2020-09-13T12:26:40Z".toList,
    "2020-09-13T12:26:40Z".toList,
    ("$argon2id$v=19$m=65536,t=3,p=2$AAECAwQFBgcICQoLDA0ODw$" ++
      "AAECAwQFBgcICQoLDA0ODxAREhMUFRYXGBkaGxwdHh8").toList⟩

/-- The registration request of the example: the identifier Bob under the email
of alice. -/
def bobRequest : RegisterParams :=
  ⟨"Bob".toList, "alice@example.com".toList, "pw".toList, "Bob".toList⟩

/-! ## Lemmas on the library models -/

theorem or_eq_add (x b k : Nat) (hx : x % 2 ^ k = 0) (hb : b < 2 ^ k) : x ||| b = x + b := by
  have hx2 : x = 2 ^ k * (x / 2 ^ k) := by
    have := Nat.div_add_mod x (2 ^ k)
    omega
  rw [hx2, ← Nat.mul_add_lt_is_or hb]

theorem and_63 (x : Nat) : x &&& 0x3F = x % 64 := Nat.and_pow_two_sub_one_eq_mod x 6

theorem or3_bytes (b0 b1 b2 : Nat) (h1 : b1 < 256) (h2 : b2 < 256) :
    b0 <<< 16 ||| b1 <<< 8 ||| b2 = b0 * 65536 + b1 * 256 + b2 := by
  simp only [Nat.shiftLeft_eq]
  rw [or_eq_add (b0 * 2 ^ 16) (b1 * 2 ^ 8) 16 (by omega) (by omega),
    or_eq_add (b0 * 2 ^ 16 + b1 * 2 ^ 8) b2 8 (by omega) (by omega)]

theorem or4_sextets (d0 d1 d2 d3 : Nat) (h1 : d1 < 64) (h2 : d2 < 64) (h3 : d3 < 64) :
    d0 <<< 18 ||| d1 <<< 12 ||| d2 <<< 6 ||| d3 = d0 * 262144 + d1 * 4096 + d2 * 64 + d3 := by
  simp only [Nat.shiftLeft_eq]
  rw [or_eq_add (d0 * 2 ^ 18) (d1 * 2 ^ 12) 18 (by omega) (by omega),
    or_eq_add (d0 * 2 ^ 18 + d1 * 2 ^ 12) (d2 * 2 ^ 6) 12 (by omega) (by omega),
    or_eq_add (d0 * 2 ^ 18 + d1 * 2 ^ 12 + d2 * 2 ^ 6) d3 6 (by omega) (by omega)]

theorem or2_bytes (b0 b1 : Nat) (h1 : b1 < 256) :
    b0 <<< 16 ||| b1 <<< 8 = b0 * 65536 + b1 * 256 := by
  simp only [Nat.shiftLeft_eq]
  rw [or_eq_add (b0 * 2 ^ 16) (b1 * 2 ^ 8) 16 (by omega) (by omega)]

theorem or3_sextets (d0 d1 d2 : Nat) (h1 : d1 < 64) (h2 : d2 < 64) :
    d0 <<< 18 ||| d1 <<< 12 ||| d2 <<< 6 = d0 * 262144 + d1 * 4096 + d2 * 64 := by
  simp only [Nat.shiftLeft_eq]
  rw [or_eq_add (d0 * 2 ^ 18) (d1 * 2 ^ 12) 18 (by omega) (by omega),
    or_eq_add (d0 * 2 ^ 18 + d1 * 2 ^ 12) (d2 * 2 ^ 6) 12 (by omega) (by omega)]

theorem or2_sextets (d0 d1 : Nat) (h1 : d1 < 64) :
    d0 <<< 18 ||| d1 <<< 12 = d0 * 262144 + d1 * 4096 := by
  simp only [Nat.shiftLeft_eq]
  rw [or_eq_add (d0 * 2 ^ 18) (d1 * 2 ^ 12) 18 (by omega) (by omega)]

theorem decodeMap_encodeChar (i : Nat) (h : i < 64) : decodeMap (encodeChar i) = i := by
  interval_cases i <;> decide

theorem decodeLoop_valid0 (c : Char) (cs : GoString) (dst : Bytes) (h : decodeMap c ≠ 0xFF) :
    decodeLoop (c :: cs) [] dst = decodeLoop cs [decodeMap c] dst := by
  simp [decodeLoop, h]

theorem decodeLoop_valid1 (c : Char) (cs : GoString) (d0 : Nat) (dst : Bytes)
    (h : decodeMap c ≠ 0xFF) :
    decodeLoop (c :: cs) [d0] dst = decodeLoop cs [d0, decodeMap c] dst := by
  simp [decodeLoop, h]

theorem decodeLoop_valid2 (c : Char) (cs : GoString) (d0 d1 : Nat) (dst : Bytes)
    (h : decodeMap c ≠ 0xFF) :
    decodeLoop (c :: cs) [d0, d1] dst = decodeLoop cs [d0, d1, decodeMap c] dst := by
  simp [decodeLoop, h]

theorem decodeLoop_valid3 (c : Char) (cs : GoString) (d0 d1 d2 : Nat) (dst : Bytes)
    (h : decodeMap c ≠ 0xFF) :
    decodeLoop (c :: cs) [d0, d1, d2] dst =
      decodeLoop cs [] (dst ++
        [(d0 <<< 18 ||| d1 <<< 12 ||| d2 <<< 6 ||| decodeMap c) >>> 16 % 256,
          (d0 <<< 18 ||| d1 <<< 12 ||| d2 <<< 6 ||| decodeMap c) >>> 8 % 256,
          (d0 <<< 18 ||| d1 <<< 12 ||| d2 <<< 6 ||| decodeMap c) % 256]) := by
  simp [decodeLoop, h]

theorem decodeMap_encodeChar_ne (i : Nat) (h : i < 64) : decodeMap (encodeChar i) ≠ 0xFF := by
  rw [decodeMap_encodeChar i h]; omega

theorem decodeLoop_EncodeToString (bs : Bytes) :
    IsBytes bs → ∀ dst, decodeLoop (EncodeToString bs) [] dst = .ok (dst ++ bs) := by
  induction bs using EncodeToString.induct with
  | case1 b0 b1 b2 rest ih =>
    intro h dst
    have h0 : b0 < 256 := h b0 (by simp)
    have h1 : b1 < 256 := h b1 (by simp)
    have h2 : b2 < 256 := h b2 (by simp)
    have hr : IsBytes rest := fun b hb => h b (by simp [hb])
    have m64 : ∀ x : Nat, x % 64 < 64 := fun x => Nat.mod_lt _ (by decide)
    simp only [EncodeToString, and_63, Nat.shiftRight_eq_div_pow, or3_bytes b0 b1 b2 h1 h2]
    rw [decodeLoop_valid0 _ _ _ (decodeMap_encodeChar_ne _ (m64 _)),
      decodeLoop_valid1 _ _ _ _ (decodeMap_encodeChar_ne _ (m64 _)),
      decodeLoop_valid2 _ _ _ _ _ (decodeMap_encodeChar_ne _ (m64 _)),
      decodeLoop_valid3 _ _ _ _ _ _ (decodeMap_encodeChar_ne _ (m64 _)),
      decodeMap_encodeChar _ (m64 _), decodeMap_encodeChar _ (m64 _),
      decodeMap_encodeChar _ (m64 _), decodeMap_encodeChar _ (m64 _),
      ih hr, or4_sextets _ _ _ _ (m64 _) (m64 _) (m64 _)]
    simp only [Nat.shiftRight_eq_div_pow, List.append_assoc, List.cons_append, List.nil_append]
    have e0 : ((b0 * 65536 + b1 * 256 + b2) / 2 ^ 18 % 64 * 262144 +
        (b0 * 65536 + b1 * 256 + b2) / 2 ^ 12 % 64 * 4096 +
        (b0 * 65536 + b1 * 256 + b2) / 2 ^ 6 % 64 * 64 +
        (b0 * 65536 + b1 * 256 + b2) % 64) = b0 * 65536 + b1 * 256 + b2 := by omega
    rw [e0]
    have e1 : (b0 * 65536 + b1 * 256 + b2) / 2 ^ 16 % 256 = b0 := by omega
    have e2 : (b0 * 65536 + b1 * 256 + b2) / 2 ^ 8 % 256 = b1 := by omega
    have e3 : (b0 * 65536 + b1 * 256 + b2) % 256 = b2 := by omega
    rw [e1, e2, e3]
  | case2 b0 b1 =>
    intro h dst
    have h0 : b0 < 256 := h b0 (by simp)
    have h1 : b1 < 256 := h b1 (by simp)
    have m64 : ∀ x : Nat, x % 64 < 64 := fun x => Nat.mod_lt _ (by decide)
    simp only [EncodeToString, and_63, Nat.shiftRight_eq_div_pow, or2_bytes b0 b1 h1]
    rw [decodeLoop_valid0 _ _ _ (decodeMap_encodeChar_ne _ (m64 _)),
      decodeLoop_valid1 _ _ _ _ (decodeMap_encodeChar_ne _ (m64 _)),
      decodeLoop_valid2 _ _ _ _ _ (decodeMap_encodeChar_ne _ (m64 _)),
      decodeMap_encodeChar _ (m64 _), decodeMap_encodeChar _ (m64 _),
      decodeMap_encodeChar _ (m64 _)]
    simp only [decodeLoop, or3_sextets _ _ _ (m64 _) (m64 _), Nat.shiftRight_eq_div_pow]
    have e1 : ((b0 * 65536 + b1 * 256) / 2 ^ 18 % 64 * 262144 +
        (b0 * 65536 + b1 * 256) / 2 ^ 12 % 64 * 4096 +
        (b0 * 65536 + b1 * 256) / 2 ^ 6 % 64 * 64) / 2 ^ 16 % 256 = b0 := by omega
    have e2 : ((b0 * 65536 + b1 * 256) / 2 ^ 18 % 64 * 262144 +
        (b0 * 65536 + b1 * 256) / 2 ^ 12 % 64 * 4096 +
        (b0 * 65536 + b1 * 256) / 2 ^ 6 % 64 * 64) / 2 ^ 8 % 256 = b1 := by omega
    rw [e1, e2]
  | case3 b0 =>
    intro h dst
    have h0 : b0 < 256 := h b0 (by simp)
    have m64 : ∀ x : Nat, x % 64 < 64 := fun x => Nat.mod_lt _ (by decide)
    simp only [EncodeToString, and_63, Nat.shiftRight_eq_div_pow, Nat.shiftLeft_eq]
    rw [decodeLoop_valid0 _ _ _ (decodeMap_encodeChar_ne _ (m64 _)),
      decodeLoop_valid1 _ _ _ _ (decodeMap_encodeChar_ne _ (m64 _)),
      decodeMap_encodeChar _ (m64 _), decodeMap_encodeChar _ (m64 _)]
    simp only [decodeLoop, or2_sextets _ _ (m64 _), Nat.shiftRight_eq_div_pow]
    have e1 : (b0 * 2 ^ 16 / 2 ^ 18 % 64 * 262144 + b0 * 2 ^ 16 / 2 ^ 12 % 64 * 4096) / 2 ^ 16
        % 256 = b0 := by omega
    rw [e1]
  | case4 =>
    intro _ dst
    simp [EncodeToString, decodeLoop]

theorem DecodeString_EncodeToString (bs : Bytes) (h : IsBytes bs) :
    DecodeString (EncodeToString bs) = .ok bs := by
  simpa [DecodeString] using decodeLoop_EncodeToString bs h []

theorem Split_ne_nil (s : GoString) (sep : Char) : Split s sep ≠ [] := by
  induction s with
  | nil => simp [Split]
  | cons c cs ih =>
    rw [Split]
    split
    · simp
    · split <;> simp

theorem Split_of_not_mem (f : GoString) (sep : Char) (h : sep ∉ f) : Split f sep = [f] := by
  induction f with
  | nil => rfl
  | cons c cs ih =>
    have hc : ¬ c = sep := fun e => h (by simp [e])
    have hcs : sep ∉ cs := fun e => h (by simp [e])
    rw [Split, if_neg hc, ih hcs]

theorem Split_append_sep (f rest : GoString) (sep : Char) (h : sep ∉ f) :
    Split (f ++ sep :: rest) sep = f :: Split rest sep := by
  induction f with
  | nil => simp [Split]
  | cons c cs ih =>
    have hc : ¬ c = sep := fun e => h (by simp [e])
    have hcs : sep ∉ cs := fun e => h (by simp [e])
    rw [List.cons_append, Split, if_neg hc, ih hcs]

theorem digitChar_isDigit (d : Nat) (h : d < 10) : isDigit (digitChar d) = true := by
  interval_cases d <;> decide

theorem digitChar_toNat (d : Nat) (h : d < 10) : (digitChar d).toNat - 48 = d := by
  interval_cases d <;> decide

theorem formatBits_spec (fuel : Nat) : ∀ (u : Nat) (acc : GoString), u < fuel →
    ∃ ds : GoString, formatBits fuel u acc = ds ++ acc ∧ ds ≠ [] ∧
      (∀ c ∈ ds, isDigit c = true) ∧
      ∀ n : Nat, ds.foldl (fun n c => n * 10 + (c.toNat - 48)) n = n * 10 ^ ds.length + u := by
  induction fuel with
  | zero => intro u acc h; omega
  | succ fuel ih =>
    intro u acc h
    rw [formatBits]
    by_cases hu : 10 ≤ u
    · rw [if_pos hu]
      obtain ⟨ds, h1, h2, h3, h4⟩ := ih (u / 10) (digitChar (u % 10) :: acc) (by omega)
      refine ⟨ds ++ [digitChar (u % 10)], by simp [h1], by simp, ?_, ?_⟩
      · intro c hc
        rcases List.mem_append.1 hc with hc | hc
        · exact h3 c hc
        · simp only [List.mem_singleton] at hc
          rw [hc]; exact digitChar_isDigit _ (Nat.mod_lt _ (by decide))
      · intro n
        rw [List.foldl_append, h4 n]
        simp only [List.foldl_cons, List.foldl_nil, List.length_append, List.length_singleton]
        rw [digitChar_toNat _ (Nat.mod_lt _ (by decide)), pow_succ]
        have := Nat.div_add_mod u 10
        nlinarith [this]
    · rw [if_neg hu]
      refine ⟨[digitChar u], rfl, by simp, ?_, ?_⟩
      · intro c hc
        simp only [List.mem_singleton] at hc
        rw [hc]; exact digitChar_isDigit _ (by omega)
      · intro n
        simp [digitChar_toNat u (by omega)]

theorem FormatUint_spec (u : Nat) :
    FormatUint u ≠ [] ∧ (∀ c ∈ FormatUint u, isDigit c = true) ∧ parseDigits (FormatUint u) = u := by
  obtain ⟨ds, h1, h2, h3, h4⟩ := formatBits_spec (u + 1) u [] (by omega)
  rw [List.append_nil] at h1
  rw [FormatUint, h1]
  refine ⟨h2, h3, ?_⟩
  rw [parseDigits, h4 0]; simp

theorem isDigit_cases (c : Char) (h : isDigit c = true) :
    c = '0' ∨ c = '1' ∨ c = '2' ∨ c = '3' ∨ c = '4' ∨ c = '5' ∨ c = '6' ∨ c = '7' ∨ c = '8' ∨
      c = '9' := by
  have hl : "0123456789".toList = ['0', '1', '2', '3', '4', '5', '6', '7', '8', '9'] := rfl
  simpa [isDigit, hl] using h

theorem SkipSpace_digit (c : Char) (cs : GoString) (h : isDigit c = true) :
    SkipSpace (c :: cs) = .ok (c :: cs) := by
  rcases isDigit_cases c h with h | h | h | h | h | h | h | h | h | h <;> subst h <;>
    simp [SkipSpace, isSpace]

theorem takeWhile_digits (ds rest : GoString) (h : ∀ c ∈ ds, isDigit c = true)
    (hr : NoDigitAhead rest) :
    (ds ++ rest).takeWhile isDigit = ds ∧ (ds ++ rest).dropWhile isDigit = rest := by
  induction ds with
  | nil =>
    cases rest with
    | nil => simp
    | cons r rs =>
      have : isDigit r = false := hr r (by simp)
      simp [List.takeWhile, List.dropWhile, this]
  | cons d ds ih =>
    have hd : isDigit d = true := h d (by simp)
    have := ih (fun c hc => h c (by simp [hc]))
    simp [List.takeWhile, List.dropWhile, hd, this]

theorem scanNumber_digits (ds rest : GoString) (hne : ds ≠ [])
    (h : ∀ c ∈ ds, isDigit c = true) (hr : NoDigitAhead rest) :
    scanNumber (ds ++ rest) = .ok (parseDigits ds, rest) := by
  obtain ⟨d, ds', rfl⟩ := List.exists_cons_of_ne_nil hne
  have hd : isDigit d = true := h d (by simp)
  have ht := takeWhile_digits (d :: ds') rest h hr
  rw [List.cons_append] at ht ⊢
  simp only [scanNumber, hd, if_true, ht.1, ht.2]

theorem scanUint_FormatUint (bitSize n : Nat) (rest : GoString) (hb : bitSize ≤ 64)
    (hn : n < 2 ^ bitSize) (hr : NoDigitAhead rest) :
    scanUint bitSize (FormatUint n ++ rest) = .ok (n, rest) := by
  obtain ⟨hne, hd, hp⟩ := FormatUint_spec n
  have hs := scanNumber_digits (FormatUint n) rest hne hd hr
  obtain ⟨d, ds', hds⟩ := List.exists_cons_of_ne_nil hne
  have hd0 : isDigit d = true := hd d (by simp [hds])
  have h64 : n < 2 ^ 64 := lt_of_lt_of_le hn (Nat.pow_le_pow_right (by decide) hb)
  rw [hp] at hs
  rw [hds] at hs ⊢
  rw [List.cons_append] at hs ⊢
  simp only [scanUint, SkipSpace_digit d _ hd0, hs]
  rw [if_neg (by omega), if_neg (by omega)]

theorem encodedHashOf_eq (p : Argon2Params) (s h : GoString) :
    encodedHashOf p s h =
      [] ++ '$' :: ("argon2id".toList ++ '$' :: ("v=19".toList ++ '$' :: (paramField p ++
        '$' :: (s ++ '$' :: h)))) := by
  have hv : FormatInt (argon2Version : Int) = "19".toList := by decide
  have hf : "$argon2id$v=%d$m=%d,t=%d,p=%d$%s$%s".toList =
      ['$', 'a', 'r', 'g', 'o', 'n', '2', 'i', 'd', '$', 'v', '=', '%', 'd', '$', 'm', '=',
        '%', 'd', ',', 't', '=', '%', 'd', ',', 'p', '=', '%', 'd', '$', '%', 's', '$', '%',
        's'] := rfl
  simp [encodedHashOf, hf, Sprintf, printArg, hv, paramField]

theorem isDigit_ne_dollar (c : Char) (h : isDigit c = true) : c ≠ '$' := by
  rcases isDigit_cases c h with h | h | h | h | h | h | h | h | h | h <;> subst h <;> decide

theorem dollar_not_mem_FormatUint (u : Nat) : '$' ∉ FormatUint u := fun hm =>
  isDigit_ne_dollar _ ((FormatUint_spec u).2.1 _ hm) rfl

theorem encodeChar_mem (i : Nat) (h : i < 64) : encodeChar i ∈ encodeStd := by
  interval_cases i <;> decide

theorem EncodeToString_InAlphabet (bs : Bytes) : InAlphabet (EncodeToString bs) := by
  have m64 : ∀ x : Nat, x % 64 < 64 := fun x => Nat.mod_lt _ (by decide)
  induction bs using EncodeToString.induct with
  | case1 b0 b1 b2 rest ih =>
    intro c hc
    simp only [EncodeToString, and_63, List.mem_cons] at hc
    rcases hc with h | h | h | h | h
    · rw [h]; exact encodeChar_mem _ (m64 _)
    · rw [h]; exact encodeChar_mem _ (m64 _)
    · rw [h]; exact encodeChar_mem _ (m64 _)
    · rw [h]; exact encodeChar_mem _ (m64 _)
    · exact ih c h
  | case2 b0 b1 =>
    intro c hc
    simp only [EncodeToString, and_63, List.mem_cons, List.mem_singleton] at hc
    rcases hc with h | h | h | h
    · rw [h]; exact encodeChar_mem _ (m64 _)
    · rw [h]; exact encodeChar_mem _ (m64 _)
    · rw [h]; exact encodeChar_mem _ (m64 _)
    · cases h
  | case3 b0 =>
    intro c hc
    simp only [EncodeToString, and_63, List.mem_cons, List.mem_singleton] at hc
    rcases hc with h | h | h
    · rw [h]; exact encodeChar_mem _ (m64 _)
    · rw [h]; exact encodeChar_mem _ (m64 _)
    · cases h
  | case4 => intro c hc; cases hc

theorem not_mem_of_InAlphabet (s : GoString) (h : InAlphabet s) : '$' ∉ s ∧ '=' ∉ s := by
  constructor
  · intro hm; exact absurd (h _ hm) (by decide)
  · intro hm; exact absurd (h _ hm) (by decide)

theorem dollar_not_mem_paramField (p : Argon2Params) : '$' ∉ paramField p := by
  have h1 := dollar_not_mem_FormatUint p.memory
  have h2 := dollar_not_mem_FormatUint p.iterations
  have h3 := dollar_not_mem_FormatUint p.parallelism
  simp [paramField, h1, h2, h3]

theorem Split_encodedHashOf (p : Argon2Params) (s h : GoString) (hs : '$' ∉ s)
    (hh : '$' ∉ h) :
    Split (encodedHashOf p s h) '$' =
      [[], "argon2id".toList, "v=19".toList, paramField p, s, h] := by
  rw [encodedHashOf_eq, Split_append_sep _ _ _ (by simp),
    Split_append_sep _ _ _ (by decide), Split_append_sep _ _ _ (by decide),
    Split_append_sep _ _ _ (dollar_not_mem_paramField p), Split_append_sep _ _ _ hs,
    Split_of_not_mem _ _ hh]

theorem NoDigitAhead_nil : NoDigitAhead [] := by
  intro c hc; simp at hc

theorem NoDigitAhead_comma (rest : GoString) : NoDigitAhead (',' :: rest) := by
  intro c hc
  simp only [List.head?_cons, Option.mem_def, Option.some.injEq] at hc
  subst hc; decide

theorem Sscanf_paramField (p : Argon2Params) (hp : p.InRange) :
    Sscanf (paramField p) "m=%d,t=%d,p=%d".toList [.uint 32, .uint 32, .uint 8] =
      .ok [(p.memory : Int), (p.iterations : Int), (p.parallelism : Int)] := by
  have hf : "m=%d,t=%d,p=%d".toList =
      ['m', '=', '%', 'd', ',', 't', '=', '%', 'd', ',', 'p', '=', '%', 'd'] := rfl
  obtain ⟨hm, ht, hpar, _, _⟩ := hp
  have e1 := scanUint_FormatUint 32 p.memory
    (',' :: 't' :: '=' :: (FormatUint p.iterations ++ ',' :: 'p' :: '=' :: FormatUint p.parallelism))
    (by decide) hm (NoDigitAhead_comma _)
  have e2 := scanUint_FormatUint 32 p.iterations (',' :: 'p' :: '=' :: FormatUint p.parallelism)
    (by decide) ht (NoDigitAhead_comma _)
  have e3 := scanUint_FormatUint 8 p.parallelism [] (by decide) hpar NoDigitAhead_nil
  rw [List.append_nil] at e3
  simp [hf, paramField, Sscanf, scanOne, e1, e2, e3]

theorem Sscanf_version : Sscanf "v=19".toList "v=%d".toList [.int 64] = .ok [19] := by decide

theorem decodeHash_encodedHashOf (p : Argon2Params) (salt hash : Bytes) (hp : p.InRange)
    (hs : IsBytes salt) (hh : IsBytes hash) (hsl : salt.length = p.saltLength)
    (hhl : hash.length = p.keyLength) :
    decodeHash (encodedHashOf p (EncodeToString salt) (EncodeToString hash)) =
      ⟨some p, some salt, some hash, none⟩ := by
  have h1 := (not_mem_of_InAlphabet _ (EncodeToString_InAlphabet salt)).1
  have h2 := (not_mem_of_InAlphabet _ (EncodeToString_InAlphabet hash)).1
  have hsp := Split_encodedHashOf p _ _ h1 h2
  obtain ⟨_, _, _, hsr, hkr⟩ := id hp
  have hv : ((19 : Int) ≠ (argon2Version : Int)) = False := by simp [argon2Version]
  simp only [decodeHash, hsp, List.length_cons, List.length_nil, List.getD_cons_succ,
    List.getD_cons_zero, Sscanf_version, Sscanf_paramField p hp,
    DecodeString_EncodeToString salt hs, DecodeString_EncodeToString hash hh, hsl, hhl,
    Nat.mod_eq_of_lt hsr, Nat.mod_eq_of_lt hkr, Int.toNat_ofNat, hv]
  simp

theorem or_eq_zero_iff (x y : Nat) : x ||| y = 0 ↔ x = 0 ∧ y = 0 := by
  constructor
  · intro h
    have ht : ∀ i, x.testBit i = false ∧ y.testBit i = false := by
      intro i
      have := congrArg (fun n => Nat.testBit n i) h
      simpa [Nat.testBit_or] using this
    exact ⟨Nat.eq_of_testBit_eq (fun i => by simp [(ht i).1]),
      Nat.eq_of_testBit_eq (fun i => by simp [(ht i).2])⟩
  · rintro ⟨rfl, rfl⟩; rfl

theorem ConstantTimeByteEq_zero (v : Nat) (h : v < 256) :
    ConstantTimeByteEq v 0 = 1 ↔ v = 0 := by
  simp only [ConstantTimeByteEq, Nat.xor_zero, Nat.shiftRight_eq_div_pow]
  have e32 : (2 : Nat) ^ 32 = 4294967296 := by norm_num
  have e31 : (2 : Nat) ^ 31 = 2147483648 := by norm_num
  rw [e32, e31]
  rcases Nat.eq_zero_or_pos v with rfl | hpos
  · decide
  · have h1 : v % 4294967296 = v := Nat.mod_eq_of_lt (by omega)
    have h2 : v + 4294967296 - 1 = (v - 1) + 4294967296 := by omega
    have h3 : (v - 1 + 4294967296) % 4294967296 = v - 1 := by
      rw [Nat.add_mod_right]; exact Nat.mod_eq_of_lt (by omega)
    have h4 : (v - 1) / 2147483648 = 0 := Nat.div_eq_of_lt (by omega)
    rw [h1, h2, h3, h4]
    omega

theorem foldl_or_xor (x : Bytes) : ∀ (y : Bytes) (v : Nat), x.length = y.length → IsBytes x →
    IsBytes y → v < 256 →
    ((List.zip x y).foldl (fun v ab => (v ||| (ab.1 ^^^ ab.2)) % 256) v < 256 ∧
      ((List.zip x y).foldl (fun v ab => (v ||| (ab.1 ^^^ ab.2)) % 256) v = 0 ↔
        v = 0 ∧ x = y)) := by
  induction x with
  | nil =>
    intro y v hl _ _ hv
    cases y with
    | nil => simp [hv]
    | cons b y => simp at hl
  | cons a x ih =>
    intro y v hl hx hy hv
    cases y with
    | nil => simp at hl
    | cons b y =>
      have ha : a < 256 := hx a (by simp)
      have hb : b < 256 := hy b (by simp)
      have hx' : IsBytes x := fun c hc => hx c (by simp [hc])
      have hy' : IsBytes y := fun c hc => hy c (by simp [hc])
      have hxor : a ^^^ b < 2 ^ 8 := Nat.xor_lt_two_pow (by omega) (by omega)
      have hor : v ||| (a ^^^ b) < 2 ^ 8 := Nat.or_lt_two_pow (by omega) hxor
      have hmod : (v ||| (a ^^^ b)) % 256 = v ||| (a ^^^ b) := Nat.mod_eq_of_lt (by omega)
      have := ih y (v ||| (a ^^^ b)) (by simpa using hl) hx' hy' (by omega)
      simp only [List.zip_cons_cons, List.foldl_cons, hmod]
      refine ⟨this.1, ?_⟩
      rw [this.2, or_eq_zero_iff, Nat.xor_eq_zero]
      constructor
      · rintro ⟨⟨h1, h2⟩, h3⟩; exact ⟨h1, by rw [h2, h3]⟩
      · rintro ⟨h1, h2⟩
        simp only [List.cons.injEq] at h2
        exact ⟨⟨h1, h2.1⟩, h2.2⟩

theorem ConstantTimeCompare_eq_one (x y : Bytes) (hx : IsBytes x) (hy : IsBytes y) :
    ConstantTimeCompare x y = 1 ↔ x = y := by
  unfold ConstantTimeCompare
  by_cases hl : x.length = y.length
  · have h := foldl_or_xor x y 0 hl hx hy (by decide)
    rw [if_neg (by simpa using hl), ConstantTimeByteEq_zero _ h.1, h.2]
    simp
  · rw [if_pos hl]
    constructor
    · intro h; cases h
    · intro h; exact absurd (congrArg List.length h) hl

theorem IDKey_ok (kdf : Kdf) (password salt : Bytes) (time memory threads keyLen : Nat)
    (ht : 1 ≤ time) (hp : 1 ≤ threads) (hk : 1 ≤ keyLen) :
    IDKey kdf password salt time memory threads keyLen =
      .ok ((List.range keyLen).map
        (fun i => kdf password salt time memory threads keyLen i % 256)) := by
  rw [IDKey, if_neg (by omega), if_neg (by omega), if_neg (by omega)]

theorem IsBytes_map_mod (f : Nat → Nat) (n : Nat) :
    IsBytes ((List.range n).map (fun i => f i % 256)) := by
  intro b hb
  simp only [List.mem_map] at hb
  obtain ⟨i, _, rfl⟩ := hb
  exact Nat.mod_lt _ (by decide)

theorem generatePassword_ok (kdf : Kdf) (stream : Nat → Nat) (password : GoString)
    (p : Argon2Params) (ht : 1 ≤ p.iterations) (hp : 1 ≤ p.parallelism)
    (hk : 1 ≤ p.keyLength) :
    generatePassword kdf (.ok stream) password p =
      .ok (encodedHashOf p
        (EncodeToString ((List.range p.saltLength).map (fun i => stream i % 256)))
        (EncodeToString ((List.range p.keyLength).map (fun i =>
          kdf (toBytes password) ((List.range p.saltLength).map (fun i => stream i % 256))
            p.iterations p.memory p.parallelism p.keyLength i % 256))), none) := by
  simp only [generatePassword, generateRandomBytes, IDKey_ok kdf _ _ _ _ _ _ ht hp hk]

theorem comparePasswordAndHash_generatePassword (kdf : Kdf) (stream : Nat → Nat)
    (password : GoString) (p : Argon2Params) (hr : p.InRange) (ht : 1 ≤ p.iterations)
    (hp : 1 ≤ p.parallelism) (hk : 1 ≤ p.keyLength) :
    ∃ encodedHash, generatePassword kdf (.ok stream) password p = .ok (encodedHash, none) ∧
      comparePasswordAndHash kdf password encodedHash = .ok (true, none) := by
  refine ⟨_, generatePassword_ok kdf stream password p ht hp hk, ?_⟩
  have hd := decodeHash_encodedHashOf p
    ((List.range p.saltLength).map (fun i => stream i % 256))
    ((List.range p.keyLength).map (fun i =>
      kdf (toBytes password) ((List.range p.saltLength).map (fun i => stream i % 256))
        p.iterations p.memory p.parallelism p.keyLength i % 256))
    hr (IsBytes_map_mod _ _) (IsBytes_map_mod _ _) (by simp) (by simp)
  have hc := (ConstantTimeCompare_eq_one _ _ (IsBytes_map_mod (fun i =>
      kdf (toBytes password) ((List.range p.saltLength).map (fun i => stream i % 256))
        p.iterations p.memory p.parallelism p.keyLength i) p.keyLength)
      (IsBytes_map_mod _ _)).2 rfl
  simp only [comparePasswordAndHash, hd, Option.getD_some,
    IDKey_ok kdf _ _ _ _ _ _ ht hp hk, hc, if_true]

theorem decodeMap_ne_iff (c : Char) : decodeMap c ≠ 0xFF ↔ c ∈ encodeStd := by
  have hlen : encodeStd.length = 64 := by decide
  unfold decodeMap
  constructor
  · intro h
    by_contra hc
    have := List.indexOf_eq_length.2 hc
    rw [this, hlen] at h
    simp at h
  · intro h
    have := List.indexOf_lt_length.2 h
    rw [hlen] at this
    rw [if_pos this]
    omega

theorem newline_not_mem : '\n' ∉ encodeStd ∧ '\r' ∉ encodeStd := by decide

theorem decodeLoop_cons (c : Char) (cs : GoString) (dbuf : List Nat) (dst : Bytes) :
    decodeLoop (c :: cs) dbuf dst =
      if decodeMap c ≠ 0xFF then
        match dbuf with
        | [d0, d1, d2] =>
          decodeLoop cs [] (dst ++
            [(d0 <<< 18 ||| d1 <<< 12 ||| d2 <<< 6 ||| decodeMap c) >>> 16 % 256,
              (d0 <<< 18 ||| d1 <<< 12 ||| d2 <<< 6 ||| decodeMap c) >>> 8 % 256,
              (d0 <<< 18 ||| d1 <<< 12 ||| d2 <<< 6 ||| decodeMap c) % 256])
        | _ => decodeLoop cs (dbuf ++ [decodeMap c]) dst
      else if c = '\n' ∨ c = '\r' then decodeLoop cs dbuf dst
      else .error .CorruptInputError := by
  rfl

theorem stripNewlines_cons_newline (c : Char) (cs : GoString) (h : c = '\n' ∨ c = '\r') :
    stripNewlines (c :: cs) = stripNewlines cs := by
  rcases h with h | h <;> subst h <;> simp [stripNewlines]

theorem stripNewlines_cons_other (c : Char) (cs : GoString) (h : ¬ (c = '\n' ∨ c = '\r')) :
    stripNewlines (c :: cs) = c :: stripNewlines cs := by
  push_neg at h
  simp [stripNewlines, h.1, h.2]

theorem decodeLoop_stripNewlines (s : GoString) : ∀ (dbuf : List Nat) (dst : Bytes),
    decodeLoop s dbuf dst = decodeLoop (stripNewlines s) dbuf dst := by
  induction s with
  | nil => intro dbuf dst; rfl
  | cons c cs ih =>
    intro dbuf dst
    by_cases hn : c = '\n' ∨ c = '\r'
    · have hm : ¬ decodeMap c ≠ 0xFF := by
        rw [decodeMap_ne_iff]
        rcases hn with h | h <;> subst h
        · exact newline_not_mem.1
        · exact newline_not_mem.2
      rw [stripNewlines_cons_newline c cs hn, decodeLoop_cons, if_neg hm, if_pos hn, ih]
    · rw [stripNewlines_cons_other c cs hn, decodeLoop_cons, decodeLoop_cons]
      by_cases hm : decodeMap c ≠ 0xFF
      · rw [if_pos hm, if_pos hm]
        split
        · exact ih _ _
        · exact ih _ _
      · rw [if_neg hm, if_neg hm, if_neg hn, if_neg hn]

theorem decodeLoop_of_valid (s : GoString) : ∀ (dbuf : List Nat) (dst : Bytes),
    dbuf.length ≤ 3 → (∀ c ∈ s, c ∈ encodeStd) → IsBytes dst →
    ((dbuf.length + s.length) % 4 ≠ 1 → ∃ bs, decodeLoop s dbuf dst = .ok bs ∧ IsBytes bs) ∧
    ((dbuf.length + s.length) % 4 = 1 → decodeLoop s dbuf dst = .error .CorruptInputError) := by
  induction s with
  | nil =>
    intro dbuf dst hl _ hd
    have hb : ∀ x : Nat, IsBytes (dst ++ [x % 256]) := by
      intro x b hb
      rcases List.mem_append.1 hb with h | h
      · exact hd b h
      · simp only [List.mem_singleton] at h; rw [h]; exact Nat.mod_lt _ (by decide)
    have hb2 : ∀ x y : Nat, IsBytes (dst ++ [x % 256, y % 256]) := by
      intro x y b hb
      rcases List.mem_append.1 hb with h | h
      · exact hd b h
      · simp only [List.mem_cons, List.mem_singleton] at h
        rcases h with h | h | h
        · rw [h]; exact Nat.mod_lt _ (by decide)
        · rw [h]; exact Nat.mod_lt _ (by decide)
        · cases h
    match dbuf, hl with
    | [], _ => exact ⟨fun _ => ⟨dst, rfl, hd⟩, fun h => by simp at h⟩
    | [d0], _ => exact ⟨fun h => by simp at h, fun _ => rfl⟩
    | [d0, d1], _ => exact ⟨fun _ => ⟨_, rfl, hb _⟩, fun h => by simp at h⟩
    | [d0, d1, d2], _ => exact ⟨fun _ => ⟨_, rfl, hb2 _ _⟩, fun h => by simp at h⟩
    | _ :: _ :: _ :: _ :: _, hl => simp at hl
  | cons c cs ih =>
    intro dbuf dst hl hv hd
    have hc : decodeMap c ≠ 0xFF := (decodeMap_ne_iff c).2 (hv c (by simp))
    have hv' : ∀ c ∈ cs, c ∈ encodeStd := fun x hx => hv x (by simp [hx])
    have hb3 : ∀ x y z : Nat, IsBytes (dst ++ [x % 256, y % 256, z % 256]) := by
      intro x y z b hb
      rcases List.mem_append.1 hb with h | h
      · exact hd b h
      · simp only [List.mem_cons, List.mem_singleton] at h
        rcases h with h | h | h | h
        · rw [h]; exact Nat.mod_lt _ (by decide)
        · rw [h]; exact Nat.mod_lt _ (by decide)
        · rw [h]; exact Nat.mod_lt _ (by decide)
        · cases h
    match dbuf, hl with
    | [], _ =>
      rw [decodeLoop_valid0 c cs dst hc]
      have := ih [decodeMap c] dst (by simp) hv' hd
      simp only [List.length_cons, List.length_nil] at this ⊢
      exact ⟨fun h => this.1 (by omega), fun h => this.2 (by omega)⟩
    | [d0], _ =>
      rw [decodeLoop_valid1 c cs d0 dst hc]
      have := ih [d0, decodeMap c] dst (by simp) hv' hd
      simp only [List.length_cons, List.length_nil] at this ⊢
      exact ⟨fun h => this.1 (by omega), fun h => this.2 (by omega)⟩
    | [d0, d1], _ =>
      rw [decodeLoop_valid2 c cs d0 d1 dst hc]
      have := ih [d0, d1, decodeMap c] dst (by simp) hv' hd
      simp only [List.length_cons, List.length_nil] at this ⊢
      exact ⟨fun h => this.1 (by omega), fun h => this.2 (by omega)⟩
    | [d0, d1, d2], _ =>
      rw [decodeLoop_valid3 c cs d0 d1 d2 dst hc]
      have := ih [] (dst ++
        [(d0 <<< 18 ||| d1 <<< 12 ||| d2 <<< 6 ||| decodeMap c) >>> 16 % 256,
          (d0 <<< 18 ||| d1 <<< 12 ||| d2 <<< 6 ||| decodeMap c) >>> 8 % 256,
          (d0 <<< 18 ||| d1 <<< 12 ||| d2 <<< 6 ||| decodeMap c) % 256]) (by simp) hv'
        (hb3 _ _ _)
      simp only [List.length_cons, List.length_nil] at this ⊢
      exact ⟨fun h => this.1 (by omega), fun h => this.2 (by omega)⟩
    | _ :: _ :: _ :: _ :: _, hl => simp at hl

theorem decodeLoop_of_invalid_char (s : GoString) : ∀ (dbuf : List Nat) (dst : Bytes),
    (∀ c ∈ s, c ≠ '\n' ∧ c ≠ '\r') → (∃ c ∈ s, c ∉ encodeStd) →
    decodeLoop s dbuf dst = .error .CorruptInputError := by
  induction s with
  | nil => intro _ _ _ h; obtain ⟨c, hc, _⟩ := h; cases hc
  | cons c cs ih =>
    intro dbuf dst hn hx
    have hnc := hn c (by simp)
    by_cases hm : decodeMap c ≠ 0xFF
    · have hcs : ∃ x ∈ cs, x ∉ encodeStd := by
        obtain ⟨x, hx1, hx2⟩ := hx
        rcases List.mem_cons.1 hx1 with h | h
        · subst h; exact absurd ((decodeMap_ne_iff x).1 hm) hx2
        · exact ⟨x, h, hx2⟩
      rw [decodeLoop_cons, if_pos hm]
      have hn' : ∀ x ∈ cs, x ≠ '\n' ∧ x ≠ '\r' := fun x hx => hn x (by simp [hx])
      split
      · exact ih _ _ hn' hcs
      · exact ih _ _ hn' hcs
    · rw [decodeLoop_cons, if_neg hm, if_neg (by simp [hnc.1, hnc.2])]

theorem stripNewlines_no_newline (s : GoString) :
    ∀ c ∈ stripNewlines s, c ≠ '\n' ∧ c ≠ '\r' := by
  intro c hc
  simp only [stripNewlines, List.mem_filter, Bool.not_eq_true', decide_eq_false_iff_not,
    not_or] at hc
  exact hc.2

/-- What DecodeString does, in full: it decodes exactly the strings that are
valid unpadded base64 once the carriage returns and line feeds are left out. -/
theorem DecodeString_spec (s : GoString) :
    (ValidRawStd (stripNewlines s) → ∃ bs, DecodeString s = .ok bs ∧ IsBytes bs) ∧
    (¬ ValidRawStd (stripNewlines s) → DecodeString s = .error .CorruptInputError) := by
  unfold DecodeString
  rw [decodeLoop_stripNewlines]
  constructor
  · intro h
    have := (decodeLoop_of_valid (stripNewlines s) [] [] (by simp) h.1
      (by intro b hb; cases hb)).1
    simp only [List.length_nil, Nat.zero_add] at this
    exact this h.2
  · intro h
    by_cases hv : ∀ c ∈ stripNewlines s, c ∈ encodeStd
    · have hl : (stripNewlines s).length % 4 = 1 := by
        by_contra hl
        exact h ⟨hv, hl⟩
      have := (decodeLoop_of_valid (stripNewlines s) [] [] (by simp) hv
        (by intro b hb; cases hb)).2
      simp only [List.length_nil, Nat.zero_add] at this
      exact this hl
    · push_neg at hv
      exact decodeLoop_of_invalid_char _ _ _ (stripNewlines_no_newline s) hv

theorem DecodeString_ok_bytes (s : GoString) (bs : Bytes) (h : DecodeString s = .ok bs) :
    IsBytes bs ∧ ValidRawStd (stripNewlines s) := by
  by_cases hv : ValidRawStd (stripNewlines s)
  · obtain ⟨bs', h1, h2⟩ := (DecodeString_spec s).1 hv
    rw [h] at h1
    cases h1
    exact ⟨h2, hv⟩
  · rw [(DecodeString_spec s).2 hv] at h
    cases h

theorem decodeHash_cases (encodedHash : GoString) :
    (∃ e, decodeHash encodedHash = .fail e) ∨
    (∃ p salt hash, decodeHash encodedHash = ⟨some p, some salt, some hash, none⟩ ∧
      IsBytes salt ∧ IsBytes hash) := by
  unfold decodeHash
  simp only []
  split
  · exact Or.inl ⟨_, rfl⟩
  · split
    · exact Or.inl ⟨_, rfl⟩
    · split
      · exact Or.inl ⟨_, rfl⟩
      · split
        · exact Or.inl ⟨_, rfl⟩
        · split
          · exact Or.inl ⟨_, rfl⟩
          · rename_i salt hsalt
            split
            · exact Or.inl ⟨_, rfl⟩
            · rename_i hash hhash
              exact Or.inr ⟨_, salt, hash, rfl, (DecodeString_ok_bytes _ _ hsalt).1,
                (DecodeString_ok_bytes _ _ hhash).1⟩

theorem decodeHash_err_some (encodedHash : GoString) (e : Error)
    (h : (decodeHash encodedHash).err = some e) : decodeHash encodedHash = .fail e := by
  rcases decodeHash_cases encodedHash with ⟨e', he⟩ | ⟨p, salt, hash, hd, _, _⟩
  · rw [he] at h ⊢
    simp only [Decoded.fail, Option.some.injEq] at h
    rw [h]
  · rw [hd] at h; cases h

theorem decodeHash_err_none (encodedHash : GoString) (h : (decodeHash encodedHash).err = none) :
    ∃ p salt hash, decodeHash encodedHash = ⟨some p, some salt, some hash, none⟩ ∧
      IsBytes salt ∧ IsBytes hash := by
  rcases decodeHash_cases encodedHash with ⟨e', he⟩ | h'
  · rw [he] at h; cases h
  · exact h'

theorem mem_starRun_self (f : GoString → List GoString) (n : Nat) (s : GoString) :
    s ∈ starRun f n s := by
  cases n <;> simp [starRun]

theorem run_cls_plus_isEmpty (p : Char → Bool) (s : GoString) :
    ((Regexp.plus (.cls p)).run s).isEmpty = false ↔ ∃ c cs, s = c :: cs ∧ p c = true := by
  cases s with
  | nil => simp [Regexp.plus, Regexp.run]
  | cons c cs =>
    by_cases hp : p c = true
    · have hm := mem_starRun_self (Regexp.cls p).run cs.length cs
      have hne : starRun (Regexp.cls p).run cs.length cs ≠ [] := List.ne_nil_of_mem hm
      simp [Regexp.plus, Regexp.run, hp, hne]
    · simp [Regexp.plus, Regexp.run, hp]

theorem Match_cls_plus (p : Char → Bool) (s : GoString) :
    (Regexp.plus (.cls p)).Match s = true ↔ ∃ c ∈ s, p c = true := by
  induction s with
  | nil => simp [Regexp.Match, Regexp.plus, Regexp.run]
  | cons c cs ih =>
    have h1 := run_cls_plus_isEmpty p (c :: cs)
    unfold Regexp.Match at ih ⊢
    rw [List.tails_cons, List.any_cons, Bool.or_eq_true, ih]
    constructor
    · rintro (h | ⟨x, hx, hpx⟩)
      · have : ((Regexp.plus (.cls p)).run (c :: cs)).isEmpty = false := by simpa using h
        obtain ⟨c', cs', he, hp⟩ := h1.1 this
        cases he
        exact ⟨c, by simp, hp⟩
      · exact ⟨x, by simp [hx], hpx⟩
    · rintro ⟨x, hx, hpx⟩
      rcases List.mem_cons.1 hx with h | h
      · subst h
        left
        have := h1.2 ⟨x, cs, rfl, hpx⟩
        simp [this]
      · exact Or.inr ⟨x, h, hpx⟩

theorem nil_mem_starRun_cls (p : Char → Bool) (n : Nat) : ∀ s : GoString, s.length ≤ n →
    ([] ∈ starRun (Regexp.cls p).run n s ↔ ∀ c ∈ s, p c = true) := by
  induction n with
  | zero =>
    intro s hs
    have : s = [] := List.length_eq_zero.1 (by omega)
    subst this
    simp [starRun]
  | succ n ih =>
    intro s hs
    cases s with
    | nil => simp [starRun, Regexp.run]
    | cons c cs =>
      have hcs : cs.length ≤ n := by simpa using hs
      by_cases hp : p c = true
      · simp [starRun, Regexp.run, hp, ih cs hcs]
      · simp [starRun, Regexp.run, hp]

theorem nil_mem_run_cls_plus (p : Char → Bool) (s : GoString) :
    [] ∈ (Regexp.plus (.cls p)).run s ↔ s ≠ [] ∧ ∀ c ∈ s, p c = true := by
  cases s with
  | nil => simp [Regexp.plus, Regexp.run]
  | cons c cs =>
    by_cases hp : p c = true
    · have := nil_mem_starRun_cls p cs.length cs (le_refl _)
      simp [Regexp.plus, Regexp.run, hp, this]
    · simp [Regexp.plus, Regexp.run, hp]

theorem MatchWhole_useridPolicy (s : GoString) :
    useridPolicy.MatchWhole s = true ↔ s ≠ [] ∧ ∀ c ∈ s, isWordChar c = true := by
  unfold Regexp.MatchWhole useridPolicy
  have hc : ∀ l : List GoString, l.contains [] = true ↔ [] ∈ l := by
    intro l; simp
  rw [hc]
  exact nil_mem_run_cls_plus isWordChar s

theorem CheckRegexp_useridPattern (s : GoString) :
    CheckRegexp useridPattern s = true ↔ ∃ c ∈ s, isWordChar c = false := by
  unfold CheckRegexp useridPattern
  rw [Match_cls_plus]
  simp

theorem Split_singleton (s : GoString) (sep : Char) : ∀ f, Split s sep = [f] → s = f := by
  induction s with
  | nil => intro f h; simp only [Split, List.cons.injEq, and_true] at h; exact h
  | cons c cs ih =>
    intro f h
    rw [Split] at h
    by_cases hc : c = sep
    · rw [if_pos hc] at h
      simp only [List.cons.injEq] at h
      exact absurd h.2 (Split_ne_nil cs sep)
    · rw [if_neg hc] at h
      cases hs : Split cs sep with
      | nil => exact absurd hs (Split_ne_nil cs sep)
      | cons g gs =>
        rw [hs] at h
        simp only [List.cons.injEq] at h
        obtain ⟨h1, h2⟩ := h
        subst h2
        rw [ih g hs, h1]

theorem jwtParse_cases (env : Env) (tokenString : GoString)
    (keyFunc : Token → Except Error RSAKey) :
    (∃ t e, jwtParse env tokenString keyFunc = (t, some e)) ∨
    (∃ t key, jwtParse env tokenString keyFunc = (some t, none) ∧ t.Valid = true ∧
      keyFunc { t with Valid := false } = .ok key ∧ env.verify tokenString key = true) := by
  unfold jwtParse
  split
  · exact Or.inl ⟨_, _, rfl⟩
  · rename_i token _
    split
    · exact Or.inl ⟨_, _, rfl⟩
    · rename_i key hkey
      by_cases hv : env.verify tokenString key = true
      · rw [if_pos hv]
        exact Or.inr ⟨_, key, rfl, rfl, hkey, hv⟩
      · rw [if_neg hv]
        exact Or.inl ⟨_, _, rfl⟩

/-! ## The credential codec and the password hasher -/

/-- C1: round trip of the credential codec. For every parameter set within its Go
types, every salt of saltLength bytes and every hash of keyLength bytes, decodeHash
applied to the string generatePassword formats from them returns no error and
exactly the same parameters (saltLength and keyLength included), the same salt
and the same hash. -/
theorem C1_decodeHash_round_trip (p : Argon2Params) (salt hash : Bytes) (hp : p.InRange)
    (hs : IsBytes salt) (hh : IsBytes hash) (hsl : salt.length = p.saltLength)
    (hhl : hash.length = p.keyLength) :
    decodeHash (encodedHashOf p (EncodeToString salt) (EncodeToString hash)) =
      ⟨some p, some salt, some hash, none⟩ :=
  decodeHash_encodedHashOf p salt hash hp hs hh hsl hhl

/-- C1 at the parameters of Register with a salt of four bytes and a hash of five. -/
theorem C1_decodeHash_round_trip_witness :
    decodeHash (encodedHashOf ⟨65536, 3, 2, 4, 5⟩ (EncodeToString [115, 97, 108, 116])
      (EncodeToString [0, 1, 128, 254, 255])) =
      ⟨some ⟨65536, 3, 2, 4, 5⟩, some [115, 97, 108, 116], some [0, 1, 128, 254, 255], none⟩ :=
  C1_decodeHash_round_trip ⟨65536, 3, 2, 4, 5⟩ [115, 97, 108, 116] [0, 1, 128, 254, 255]
    (by decide) (by decide) (by decide) (by decide) (by decide)

/-- C2 as stated fails: with one iteration, one thread and a key length of zero,
all within their Go types, generatePassword returns no string: argon2.IDKey
panics on the empty key. -/
theorem C2_counterexample :
    Argon2Params.InRange ⟨8, 1, 1, 1, 0⟩ ∧
    generatePassword (fun _ _ _ _ _ _ i => i) (.ok (fun i => i)) "password".toList
      ⟨8, 1, 1, 1, 0⟩ = .error .nilDereference := by
  decide

/-- C2, as amended: for every password and every parameter set within its Go
types with iterations, parallelism and key length at least one, and for every
salt the random source delivers, generatePassword returns an encoded hash and no
error, and comparePasswordAndHash of the same password and that encoded hash
returns a match and no error; the bytes argon2.IDKey returns are any function of
its arguments. -/
theorem C2_compare_after_generate (kdf : Kdf) (stream : Nat → Nat) (password : GoString)
    (p : Argon2Params) (hr : p.InRange) (ht : 1 ≤ p.iterations) (hp : 1 ≤ p.parallelism)
    (hk : 1 ≤ p.keyLength) :
    ∃ encodedHash, generatePassword kdf (.ok stream) password p = .ok (encodedHash, none) ∧
      comparePasswordAndHash kdf password encodedHash = .ok (true, none) :=
  comparePasswordAndHash_generatePassword kdf stream password p hr ht hp hk

/-- C2, as amended, at a concrete key derivation, random stream, password and
parameter set. -/
theorem C2_compare_after_generate_witness :
    ∃ encodedHash,
      generatePassword (fun pw salt t m th k i => pw.length + salt.length + t + m + th + k + i)
        (.ok (fun i => 7 * i + 250)) "correct-horse-battery-staple".toList
        ⟨65536, 3, 2, 16, 32⟩ = .ok (encodedHash, none) ∧
      comparePasswordAndHash
        (fun pw salt t m th k i => pw.length + salt.length + t + m + th + k + i)
        "correct-horse-battery-staple".toList encodedHash = .ok (true, none) :=
  C2_compare_after_generate _ _ _ ⟨65536, 3, 2, 16, 32⟩ (by decide) (by decide) (by decide)
    (by decide)

/-- C3, as amended: decodeHash fails closed. It returns nil parameters, a nil
salt, a nil hash and ErrInvaildHash when the string does not split on the dollar
sign into exactly 6 fields; with 6 fields it returns the nil record and
ErrIncompatibleVersion when the version Sscanf reads from the third field is not
argon2.Version; with 6 fields it returns the nil record and an error when the
fifth or the sixth field, its carriage returns and line feeds left out, is not
valid unpadded standard base64, and that error is the base64 error when the
version and the cost parameters scan and the version is argon2.Version. Whenever
it returns an error at all, the record is nil. -/
theorem C3_decodeHash_fails_closed (encodedHash : GoString) :
    ((Split encodedHash '$').length ≠ 6 → decodeHash encodedHash = .fail .ErrInvaildHash) ∧
    (∀ version : Int, (Split encodedHash '$').length = 6 →
      Sscanf ((Split encodedHash '$').getD 2 []) "v=%d".toList [.int 64] = .ok [version] →
      version ≠ (argon2Version : Int) →
      decodeHash encodedHash = .fail .ErrIncompatibleVersion) ∧
    ((Split encodedHash '$').length = 6 →
      (¬ ValidRawStd (stripNewlines ((Split encodedHash '$').getD 4 [])) ∨
        ¬ ValidRawStd (stripNewlines ((Split encodedHash '$').getD 5 []))) →
      ∃ e, decodeHash encodedHash = .fail e ∧
        (Sscanf ((Split encodedHash '$').getD 2 []) "v=%d".toList [.int 64] =
            .ok [(argon2Version : Int)] →
          (∃ ps, Sscanf ((Split encodedHash '$').getD 3 []) "m=%d,t=%d,p=%d".toList
            [.uint 32, .uint 32, .uint 8] = .ok ps) →
          e = .CorruptInputError)) ∧
    (∀ e, (decodeHash encodedHash).err = some e → decodeHash encodedHash = .fail e) := by
  refine ⟨?_, ?_, ?_, fun e he => decodeHash_err_some encodedHash e he⟩
  · intro h
    simp only [decodeHash, h, ne_eq, not_false_eq_true, if_true]
  · intro version h6 hv hne
    simp only [decodeHash, h6, ne_eq, not_true_eq_false, if_false, hv, List.getD_cons_zero,
      hne, not_false_eq_true, if_true]
  · intro h6 hbad
    have hfail : ∃ e, decodeHash encodedHash = .fail e := by
      rcases decodeHash_cases encodedHash with h | ⟨p, salt, hash, hd, _, _⟩
      · exact h
      · exfalso
        unfold decodeHash at hd
        simp only [h6, ne_eq, not_true_eq_false, if_false] at hd
        split at hd
        · cases hd
        · split at hd
          · cases hd
          · split at hd
            · cases hd
            · split at hd
              · cases hd
              · rename_i s4 hs4
                split at hd
                · cases hd
                · rename_i s5 hs5
                  rcases hbad with hb | hb
                  · exact hb (DecodeString_ok_bytes _ _ hs4).2
                  · exact hb (DecodeString_ok_bytes _ _ hs5).2
    obtain ⟨e, he⟩ := hfail
    refine ⟨e, he, ?_⟩
    intro hv hps
    obtain ⟨ps, hps⟩ := hps
    unfold decodeHash at he
    simp only [h6, ne_eq, not_true_eq_false, if_false, hv, List.getD_cons_zero, hps] at he
    by_cases h4 : ValidRawStd (stripNewlines ((Split encodedHash '$').getD 4 []))
    · have h5 : ¬ ValidRawStd (stripNewlines ((Split encodedHash '$').getD 5 [])) := by
        rcases hbad with hb | hb
        · exact absurd h4 hb
        · exact hb
      obtain ⟨salt, hsalt, _⟩ := (DecodeString_spec _).1 h4
      simp only [hsalt, (DecodeString_spec _).2 h5, Decoded.fail, Decoded.mk.injEq,
        Option.some.injEq, true_and] at he
      exact he.symm
    · simp only [(DecodeString_spec _).2 h4, Decoded.fail, Decoded.mk.injEq,
        Option.some.injEq, true_and] at he
      exact he.symm


/-- C3 as stated fails: the fifth field of this string ends in a line feed, so it
is not valid unpadded standard base64, and yet decodeHash returns the record and
no error, the base64 decoder of Go skipping line feeds. -/
theorem C3_counterexample :
    (Split "$argon2id$v=19$m=1,t=1,p=1$QQ\n$QQ".toList '$').length = 6 ∧
    ¬ ValidRawStd ((Split "$argon2id$v=19$m=1,t=1,p=1$QQ\n$QQ".toList '$').getD 4 []) ∧
    decodeHash "$argon2id$v=19$m=1,t=1,p=1$QQ\n$QQ".toList =
      ⟨some ⟨1, 1, 1, 1, 1⟩, some [65], some [65], none⟩ := by
  decide

/-- C3, as amended, at three strings: one of five fields, one of version 18 and
one whose salt field holds a padding character. -/
theorem C3_decodeHash_fails_closed_witness :
    decodeHash "$argon2id$v=19$m=1,t=1,p=1$QQ".toList = .fail .ErrInvaildHash ∧
    decodeHash "$argon2id$v=18$m=1,t=1,p=1$QQ$QQ".toList = .fail .ErrIncompatibleVersion ∧
    (∃ e, decodeHash "$argon2id$v=19$m=1,t=1,p=1$QQ==$QQ".toList = .fail e ∧
      (Sscanf ((Split "$argon2id$v=19$m=1,t=1,p=1$QQ==$QQ".toList '$').getD 2 [])
          "v=%d".toList [.int 64] = .ok [(argon2Version : Int)] →
        (∃ ps, Sscanf ((Split "$argon2id$v=19$m=1,t=1,p=1$QQ==$QQ".toList '$').getD 3 [])
          "m=%d,t=%d,p=%d".toList [.uint 32, .uint 32, .uint 8] = .ok ps) →
        e = .CorruptInputError)) :=
  ⟨(C3_decodeHash_fails_closed _).1 (by decide),
    (C3_decodeHash_fails_closed _).2.1 18 (by decide) (by decide) (by decide),
    (C3_decodeHash_fails_closed _).2.2.1 (by decide) (Or.inl (by decide))⟩

/-- C4 as stated fails: the first string decodes, with zero iterations, and the
second decodes, with an empty hash; on either comparePasswordAndHash returns
neither a match nor an error, argon2.IDKey panicking on a number of rounds below
one and on a key length of zero. -/
theorem C4_counterexample :
    (decodeHash "$argon2id$v=19$m=1,t=0,p=1$QQ$QQ".toList).err = none ∧
    comparePasswordAndHash (fun _ _ _ _ _ _ _ => 0) "password".toList
      "$argon2id$v=19$m=1,t=0,p=1$QQ$QQ".toList = .error .roundsTooSmall ∧
    (decodeHash "$argon2id$v=19$m=1,t=1,p=1$QQ$".toList).err = none ∧
    comparePasswordAndHash (fun _ _ _ _ _ _ _ => 0) "password".toList
      "$argon2id$v=19$m=1,t=1,p=1$QQ$".toList = .error .nilDereference := by
  decide

/-- C4, as amended: comparePasswordAndHash returns an error if and only if
decodeHash rejects the encoded string, and the error is that of decodeHash, with
match false. When the string decodes and the decoded iterations, parallelism and
key length (the length of the stored hash) are at least one, it returns no
error, and match is true exactly when the hash argon2.IDKey computes from the
password, the decoded salt and the decoded parameters equals the stored hash.
When the string decodes with iterations, parallelism or key length zero,
argon2.IDKey panics and nothing is returned. -/
theorem C4_comparePasswordAndHash (kdf : Kdf) (password encodedHash : GoString) :
    ((∃ m e, comparePasswordAndHash kdf password encodedHash = .ok (m, some e)) ↔
      (decodeHash encodedHash).err ≠ none) ∧
    (∀ e, (decodeHash encodedHash).err = some e →
      comparePasswordAndHash kdf password encodedHash = .ok (false, some e)) ∧
    ((decodeHash encodedHash).err = none →
      ∃ p salt hash, decodeHash encodedHash = ⟨some p, some salt, some hash, none⟩ ∧
        (1 ≤ p.iterations → 1 ≤ p.parallelism → 1 ≤ p.keyLength →
          ∃ otherHash,
            IDKey kdf (toBytes password) salt p.iterations p.memory p.parallelism p.keyLength =
              .ok otherHash ∧
            comparePasswordAndHash kdf password encodedHash =
              .ok (decide (hash = otherHash), none)) ∧
        (¬ (1 ≤ p.iterations ∧ 1 ≤ p.parallelism ∧ 1 ≤ p.keyLength) →
          ∃ pn, comparePasswordAndHash kdf password encodedHash = .error pn)) := by
  have herr : ∀ e, (decodeHash encodedHash).err = some e →
      comparePasswordAndHash kdf password encodedHash = .ok (false, some e) := by
    intro e he
    simp only [comparePasswordAndHash, he]
  have hnone : (decodeHash encodedHash).err = none →
      ∃ p salt hash, decodeHash encodedHash = ⟨some p, some salt, some hash, none⟩ ∧
        (1 ≤ p.iterations → 1 ≤ p.parallelism → 1 ≤ p.keyLength →
          ∃ otherHash,
            IDKey kdf (toBytes password) salt p.iterations p.memory p.parallelism p.keyLength =
              .ok otherHash ∧
            comparePasswordAndHash kdf password encodedHash =
              .ok (decide (hash = otherHash), none)) ∧
        (¬ (1 ≤ p.iterations ∧ 1 ≤ p.parallelism ∧ 1 ≤ p.keyLength) →
          ∃ pn, comparePasswordAndHash kdf password encodedHash = .error pn) := by
    intro hn
    obtain ⟨p, salt, hash, hd, _, hhash⟩ := decodeHash_err_none encodedHash hn
    refine ⟨p, salt, hash, hd, ?_, ?_⟩
    · intro ht hp hk
      refine ⟨_, IDKey_ok kdf _ _ _ _ _ _ ht hp hk, ?_⟩
      have hc := ConstantTimeCompare_eq_one hash
        ((List.range p.keyLength).map (fun i =>
          kdf (toBytes password) salt p.iterations p.memory p.parallelism p.keyLength i % 256))
        hhash (IsBytes_map_mod _ _)
      simp only [comparePasswordAndHash, hd, Option.getD_some,
        IDKey_ok kdf _ _ _ _ _ _ ht hp hk]
      by_cases heq : hash = (List.range p.keyLength).map (fun i =>
          kdf (toBytes password) salt p.iterations p.memory p.parallelism p.keyLength i % 256)
      · rw [if_pos (hc.2 heq)]; simp [heq]
      · rw [if_neg (fun h => heq (hc.1 h))]; simp [heq]
    · intro hz
      simp only [comparePasswordAndHash, hd, Option.getD_some, IDKey]
      by_cases ht : p.iterations < 1
      · exact ⟨_, by rw [if_pos ht]⟩
      · by_cases hp : p.parallelism < 1
        · exact ⟨_, by rw [if_neg ht, if_pos hp]⟩
        · have hk : p.keyLength < 1 := by omega
          exact ⟨_, by rw [if_neg ht, if_neg hp, if_pos hk]⟩
  refine ⟨⟨?_, ?_⟩, herr, hnone⟩
  · rintro ⟨m, e, hc⟩ hn
    obtain ⟨p, salt, hash, hd, h1, h2⟩ := hnone hn
    by_cases hz : 1 ≤ p.iterations ∧ 1 ≤ p.parallelism ∧ 1 ≤ p.keyLength
    · obtain ⟨o, _, ho⟩ := h1 hz.1 hz.2.1 hz.2.2
      rw [ho] at hc; cases hc
    · obtain ⟨pn, hpn⟩ := h2 hz
      rw [hpn] at hc; cases hc
  · intro hne
    cases he : (decodeHash encodedHash).err with
    | none => exact absurd he hne
    | some e => exact ⟨false, e, herr e he⟩

/-- C4, as amended, at a string that decodes with one iteration, one thread and a
hash of one byte: the stored hash is the byte 65, the recomputed one the byte 0,
so no match and no error. -/
theorem C4_comparePasswordAndHash_witness :
    ∃ p salt hash, decodeHash "$argon2id$v=19$m=1,t=1,p=1$QQ$QQ".toList =
        ⟨some p, some salt, some hash, none⟩ ∧
      (1 ≤ p.iterations → 1 ≤ p.parallelism → 1 ≤ p.keyLength →
        ∃ otherHash,
          IDKey (fun _ _ _ _ _ _ _ => 0) (toBytes "password".toList) salt p.iterations p.memory
            p.parallelism p.keyLength = .ok otherHash ∧
          comparePasswordAndHash (fun _ _ _ _ _ _ _ => 0) "password".toList
            "$argon2id$v=19$m=1,t=1,p=1$QQ$QQ".toList = .ok (decide (hash = otherHash), none)) ∧
      (¬ (1 ≤ p.iterations ∧ 1 ≤ p.parallelism ∧ 1 ≤ p.keyLength) →
        ∃ pn, comparePasswordAndHash (fun _ _ _ _ _ _ _ => 0) "password".toList
          "$argon2id$v=19$m=1,t=1,p=1$QQ$QQ".toList = .error pn) :=
  (C4_comparePasswordAndHash (fun _ _ _ _ _ _ _ => 0) "password".toList
    "$argon2id$v=19$m=1,t=1,p=1$QQ$QQ".toList).2.2 (by decide)

/-- C5: whenever generatePassword returns a string and no error, the random
source delivered a salt, argon2.IDKey a hash, and the string splits on the dollar
sign into exactly 6 fields: an empty field, the tag argon2id, v= and
argon2.Version, m=, t= and p= with the memory, the iterations and the
parallelism in decimal, the unpadded standard base64 of the salt and that of the
hash; neither base64 field holds a dollar sign or a padding character. And it
does return such a string whenever the random source delivers and the
iterations, the parallelism and the key length are at least one. -/
theorem C5_generatePassword_fields (kdf : Kdf) (rand : Except Error (Nat → Nat))
    (password : GoString) (p : Argon2Params) :
    (∀ encodedHash, generatePassword kdf rand password p = .ok (encodedHash, none) →
      ∃ salt hash, generateRandomBytes rand p.saltLength = .ok salt ∧
        IDKey kdf (toBytes password) salt p.iterations p.memory p.parallelism p.keyLength =
          .ok hash ∧
        Split encodedHash '$' =
          [[], "argon2id".toList, "v=".toList ++ FormatInt (argon2Version : Int),
            "m=".toList ++ FormatUint p.memory ++ ",t=".toList ++ FormatUint p.iterations ++
              ",p=".toList ++ FormatUint p.parallelism,
            EncodeToString salt, EncodeToString hash] ∧
        (Split encodedHash '$').length = 6 ∧
        '$' ∉ EncodeToString salt ∧ '=' ∉ EncodeToString salt ∧
        '$' ∉ EncodeToString hash ∧ '=' ∉ EncodeToString hash) ∧
    (∀ stream, rand = .ok stream → 1 ≤ p.iterations → 1 ≤ p.parallelism →
      1 ≤ p.keyLength →
      ∃ encodedHash, generatePassword kdf rand password p = .ok (encodedHash, none)) := by
  constructor
  · intro encodedHash h
    unfold generatePassword at h
    split at h
    · cases h
    · rename_i salt hsalt
      split at h
      · cases h
      · rename_i hash hhash
        simp only [Except.ok.injEq, Prod.mk.injEq, and_true] at h
        have hs := not_mem_of_InAlphabet _ (EncodeToString_InAlphabet salt)
        have hh := not_mem_of_InAlphabet _ (EncodeToString_InAlphabet hash)
        have hsp := Split_encodedHashOf p _ _ hs.1 hh.1
        rw [h] at hsp
        have hv : "v=".toList ++ FormatInt (argon2Version : Int) = "v=19".toList := by decide
        have hpf : "m=".toList ++ FormatUint p.memory ++ ",t=".toList ++
            FormatUint p.iterations ++ ",p=".toList ++ FormatUint p.parallelism =
            paramField p := by
          simp [paramField]
        refine ⟨salt, hash, hsalt, hhash, ?_, ?_, hs.1, hs.2, hh.1, hh.2⟩
        · rw [hsp, hv, hpf]
        · rw [hsp]; rfl
  · intro stream hr ht hp hk
    subst hr
    exact ⟨_, generatePassword_ok kdf stream password p ht hp hk⟩

/-- C5 at the password of the scenario, with a salt of four bytes and a key of
five: the string returned and its six fields. -/
theorem C5_generatePassword_fields_witness :
    generatePassword (fun _ _ _ _ _ _ i => 200 + i) (.ok (fun i => 7 * i + 250))
        "correct-horse-battery-staple".toList ⟨65536, 3, 2, 4, 5⟩ =
      .ok ("$argon2id$v=19$m=65536,t=3,p=2$+gEIDw$yMnKy8w".toList, none) ∧
    ∃ salt hash, generateRandomBytes (.ok (fun i => 7 * i + 250)) 4 = .ok salt ∧
      IDKey (fun _ _ _ _ _ _ i => 200 + i) (toBytes "correct-horse-battery-staple".toList) salt
        3 65536 2 5 = .ok hash ∧
      Split "$argon2id$v=19$m=65536,t=3,p=2$+gEIDw$yMnKy8w".toList '$' =
        [[], "argon2id".toList, "v=".toList ++ FormatInt (argon2Version : Int),
          "m=".toList ++ FormatUint 65536 ++ ",t=".toList ++ FormatUint 3 ++
            ",p=".toList ++ FormatUint 2,
          EncodeToString salt, EncodeToString hash] ∧
      (Split "$argon2id$v=19$m=65536,t=3,p=2$+gEIDw$yMnKy8w".toList '$').length = 6 ∧
      '$' ∉ EncodeToString salt ∧ '=' ∉ EncodeToString salt ∧
      '$' ∉ EncodeToString hash ∧ '=' ∉ EncodeToString hash :=
  ⟨by decide,
    (C5_generatePassword_fields (fun _ _ _ _ _ _ i => 200 + i) (.ok (fun i => 7 * i + 250))
      "correct-horse-battery-staple".toList ⟨65536, 3, 2, 4, 5⟩).1 _ (by decide)⟩

/-! ## The token issuer -/

/-- C6 as stated fails: with three readings of the clock that straddle the end of
a second, the claims have issuedAt 1 and expiresAt 300, so that no single instant
now has issuedAt = now and expiresAt = now + 300. -/
theorem C6_counterexample :
    tokenClaims (fun k => 999999999 + k) "alice".toList =
      { Audience := "alice".toList, ExpiresAt := 300, IssuedAt := 1, NotBefore := 6 } ∧
    (tokenClaims (fun k => 999999999 + k) "alice".toList).ExpiresAt ≠
      (tokenClaims (fun k => 999999999 + k) "alice".toList).IssuedAt + 300 := by
  decide

/-- C6, as amended: the token GenerateJWTToken returns is the signature of claims
with audience the identity, expiresAt the Unix seconds of a first reading of the
clock plus 300, issuedAt the Unix seconds of a second reading and notBefore the
Unix seconds of a third reading plus 5. When the three readings fall in one
second now, issuedAt = now, notBefore = now + 5 and expiresAt = now + 300.
notBefore is at least issuedAt when the third reading is not before the second,
and expiresAt is after notBefore when the third reading is at most 294 seconds
after the first. -/
theorem C6_token_claims (env : Env) (clock : Nat → Int) (UserID : GoString) :
    (∀ t, GenerateJWTToken env clock UserID = .ok t →
      ∃ key, LoadPrivateKey env = .ok key ∧
        env.signRS512 (tokenClaims clock UserID) key = .ok t) ∧
    (tokenClaims clock UserID).Audience = UserID ∧
    (tokenClaims clock UserID).ExpiresAt = Unix (clock 0) + 300 ∧
    (tokenClaims clock UserID).IssuedAt = Unix (clock 1) ∧
    (tokenClaims clock UserID).NotBefore = Unix (clock 2) + 5 ∧
    (∀ now : Int, Unix (clock 0) = now → Unix (clock 1) = now → Unix (clock 2) = now →
      (tokenClaims clock UserID).IssuedAt = now ∧
      (tokenClaims clock UserID).NotBefore = now + 5 ∧
      (tokenClaims clock UserID).ExpiresAt = now + 300) ∧
    (clock 1 ≤ clock 2 →
      (tokenClaims clock UserID).IssuedAt ≤ (tokenClaims clock UserID).NotBefore) ∧
    (clock 2 ≤ clock 0 + 294 * Second →
      (tokenClaims clock UserID).NotBefore < (tokenClaims clock UserID).ExpiresAt) := by
  have hexp : (tokenClaims clock UserID).ExpiresAt = Unix (clock 0) + 300 := by
    simp only [tokenClaims, Unix, Minute, Second]; omega
  have hiat : (tokenClaims clock UserID).IssuedAt = Unix (clock 1) := rfl
  have hnbf : (tokenClaims clock UserID).NotBefore = Unix (clock 2) + 5 := by
    simp only [tokenClaims, Unix, Second]; omega
  refine ⟨?_, rfl, hexp, hiat, hnbf, ?_, ?_, ?_⟩
  · intro t ht
    unfold GenerateJWTToken at ht
    split at ht
    · cases ht
    · rename_i key hkey
      split at ht
      · cases ht
      · rename_i t' ht'
        cases ht
        exact ⟨key, hkey, ht'⟩
  · intro now h0 h1 h2
    rw [hexp, hiat, hnbf, h0, h1, h2]
    exact ⟨rfl, rfl, rfl⟩
  · intro h
    rw [hiat, hnbf]
    simp only [Unix]
    omega
  · intro h
    rw [hexp, hnbf]
    simp only [Unix, Second] at h ⊢
    omega

/-- C6, as amended, at a clock that ticks once a reading from the start of a
second: one token, and the three times of its claims. -/
theorem C6_token_claims_witness :
    GenerateJWTToken exampleEnv (fun k => 1600000000000000000 + k) "alice".toList =
      .ok "alice".toList ∧
    (tokenClaims (fun k => 1600000000000000000 + k) "alice".toList).IssuedAt = 1600000000 ∧
    (tokenClaims (fun k => 1600000000000000000 + k) "alice".toList).NotBefore = 1600000005 ∧
    (tokenClaims (fun k => 1600000000000000000 + k) "alice".toList).ExpiresAt = 1600000300 :=
  ⟨by decide,
    (C6_token_claims exampleEnv (fun k => 1600000000000000000 + k) "alice".toList).2.2.2.2.2.1
      1600000000 (by decide) (by decide) (by decide)⟩

/-! ## The handlers -/

/-- C7 fails on the code: for every storage state that can be reached and every
login request that is bound, is not turned away by the check of its characters
and names no stored user_id or email, Login answers with the error 500 of echo.
RoadPasswordAndUserID drops the error of Scan and returns empty strings, and
comparePasswordAndHash fails on the empty hash with ErrInvaildHash. -/
theorem C7_Login_unknown_identifier (h : Handler) (env : Env) (c : Context LoginParams)
    (RequestData : LoginParams) (hb : c.bind = .ok RequestData)
    (hv : ¬ ((c.validate RequestData).isSome ∧
      CheckRegexp useridPattern RequestData.UserName = true))
    (hu : ∀ u ∈ h.users, u.user_id ≠ RequestData.UserName ∧ u.email ≠ RequestData.UserName) :
    Login h env c = .ok (.httpError 500, h) := by
  have hfind : h.users.find?
      (fun u => u.user_id = RequestData.UserName ∨ u.email = RequestData.UserName) = none := by
    rw [List.find?_eq_none]
    intro u hu'
    simp [(hu u hu').1, (hu u hu').2]
  have hroad : RoadPasswordAndUserID h RequestData.UserName = ([], [], none) := by
    unfold RoadPasswordAndUserID
    simp only [hfind]
    cases h.up <;> rfl
  have hd : decodeHash [] = .fail .ErrInvaildHash := by decide
  have hc : comparePasswordAndHash env.kdf RequestData.Password [] =
      .ok (false, some .ErrInvaildHash) := by
    simp only [comparePasswordAndHash, hd, Decoded.fail]
  simp only [Login, hb, hv, if_false, hroad, hc]

/-- C7 at a storage that holds alice: an unknown identifier is answered 500, the
identifier alice with a wrong password is answered 401. -/
theorem C7_Login_unknown_identifier_witness :
    Login ⟨true, [alice]⟩ exampleEnv ⟨.ok ⟨"ghost".toList, "pw".toList⟩, fun _ => none⟩ =
      .ok (.httpError 500, ⟨true, [alice]⟩) ∧
    Login ⟨true, [alice]⟩ exampleEnv ⟨.ok ⟨"alice".toList, "pw".toList⟩, fun _ => none⟩ =
      .ok (.json 401 [("status_code", "401".toList)], ⟨true, [alice]⟩) :=
  ⟨C7_Login_unknown_identifier ⟨true, [alice]⟩ exampleEnv
      ⟨.ok ⟨"ghost".toList, "pw".toList⟩, fun _ => none⟩ ⟨"ghost".toList, "pw".toList⟩ rfl
      (by decide) (by decide),
    by decide⟩

/-- C8 fails on the code for the email: for every storage state and every
registration request that is bound, valid and passes the check of the
identifier, when no stored user_id is the lowercased identifier and none is the
email, Register does not answer 409, whatever the stored emails are:
CheckUniqueEmail compares the email with column user_id. -/
theorem C8_Register_email_not_checked (h : Handler) (env : Env) (c : Context RegisterParams)
    (RequestData : RegisterParams) (hb : c.bind = .ok RequestData)
    (hv : c.validate RequestData = none)
    (hc : CheckRegexp useridPattern RequestData.UserID = false)
    (hid : ∀ u ∈ h.users, u.user_id ≠ ToLower RequestData.UserID)
    (hmail : ∀ u ∈ h.users, u.user_id ≠ RequestData.EMail) :
    ∀ r h1, Register h env c = .ok (r, h1) → r.status ≠ some 409 := by
  have hsum : ∀ (s : GoString), (∀ u ∈ h.users, u.user_id ≠ s) →
      (h.users.map (fun u => if u.user_id = s then 1 else 0)).sum = 0 := by
    intro s hs
    apply List.sum_eq_zero
    intro x hx
    simp only [List.mem_map] at hx
    obtain ⟨u, hu, rfl⟩ := hx
    rw [if_neg (hs u hu)]
  intro r h1 hr
  unfold Register at hr
  simp only [hb, hv, Option.isSome_none, Bool.false_eq_true, if_false, hc] at hr
  cases hup : h.up
  · simp only [CheckUniqueUserID, hup, if_true] at hr
    cases hr
    simp [Reply.status]
  · simp only [CheckUniqueUserID, CheckUniqueEmail, hup, Bool.true_eq_false, if_false,
      hsum _ hid, hsum _ hmail, if_true] at hr
    split at hr
    · cases hr
    · cases hr; simp [Reply.status]
    · split at hr
      · cases hr; simp [Reply.status]
      · cases hr; simp [Reply.status]

/-- C8 at a storage that holds alice: a registration of bob under the email of
alice is answered 201, and bob is stored with that email. -/
theorem C8_Register_email_not_checked_witness :
    Register ⟨true, [alice]⟩ exampleEnv ⟨.ok bobRequest, fun _ => none⟩ =
      .ok (.json 201 [("status_code", "201".toList), ("account_url", "/users/bob/".toList)],
        ⟨true, [alice, bobRow]⟩) ∧
    bobRow.email = alice.email ∧
    (Reply.json 201 [("status_code", "201".toList),
      ("account_url", "/users/bob/".toList)]).status ≠ some 409 :=
  ⟨by decide, by decide,
    C8_Register_email_not_checked ⟨true, [alice]⟩ exampleEnv ⟨.ok bobRequest, fun _ => none⟩
      bobRequest rfl rfl (by decide) (by decide) (by decide)
      (.json 201 [("status_code", "201".toList), ("account_url", "/users/bob/".toList)])
      ⟨true, [alice, bobRow]⟩ (by decide)⟩

/-- C9 as stated fails: on the empty identifier CheckRegexp is false, so the
check of Register lets it through, and the empty identifier does not match
the policy ^[a-zA-Z0-9_]+$ either. -/
theorem C9_counterexample :
    CheckRegexp useridPattern [] = false ∧ useridPolicy.MatchWhole [] = false := by
  decide

/-- C9, as amended: CheckRegexp of the pattern of the source is true exactly when
the identifier holds a character outside a-zA-Z0-9_; for every identifier that is
not empty this is exactly when the identifier does not match ^[a-zA-Z0-9_]+$, and
on the empty identifier it is false. For a request that is bound and valid,
Register answers 400 invaild userid, whatever the storage and without a change
to it, exactly when CheckRegexp is true. -/
theorem C9_CheckRegexp_userid (UserID : GoString) :
    (CheckRegexp useridPattern UserID = true ↔ ∃ c ∈ UserID, isWordChar c = false) ∧
    (UserID ≠ [] →
      (CheckRegexp useridPattern UserID = true ↔ useridPolicy.MatchWhole UserID = false)) ∧
    (UserID = [] → CheckRegexp useridPattern UserID = false) ∧
    (∀ (h : Handler) (env : Env) (c : Context RegisterParams) (RequestData : RegisterParams),
      c.bind = .ok RequestData → c.validate RequestData = none →
      RequestData.UserID = UserID →
      (Register h env c = .ok (invaildUserid, h) ↔ CheckRegexp useridPattern UserID = true)) := by
  refine ⟨CheckRegexp_useridPattern UserID, ?_, ?_, ?_⟩
  · intro hne
    rw [CheckRegexp_useridPattern, ← Bool.not_eq_true, MatchWhole_useridPolicy]
    constructor
    · rintro ⟨c, hc, hw⟩ ⟨_, hall⟩
      rw [hall c hc] at hw
      cases hw
    · intro h
      by_contra hx
      push_neg at hx
      exact h ⟨hne, fun c hc => by simpa using hx c hc⟩
  · intro he
    subst he
    decide
  · intro h env c RequestData hb hv hid
    subst hid
    constructor
    · intro hr
      by_contra hc
      have hc' : CheckRegexp useridPattern RequestData.UserID = false := by simpa using hc
      unfold Register at hr
      simp only [hb, hv, Option.isSome_none, Bool.false_eq_true, if_false, hc'] at hr
      split at hr
      · simp [invaildUserid] at hr
      · simp [invaildUserid] at hr
      · split at hr
        · simp [invaildUserid] at hr
        · simp [invaildUserid] at hr
        · split at hr
          · cases hr
          · simp [invaildUserid] at hr
          · split at hr
            · simp [invaildUserid] at hr
            · simp [invaildUserid] at hr
    · intro hc
      unfold Register
      simp only [hb, hv, Option.isSome_none, Bool.false_eq_true, if_false, hc, if_true,
        invaildUserid]

/-- C9, as amended, at the identifier of the scenario, with a blank and an
exclamation mark: Register answers 400 invaild userid on any storage. -/
theorem C9_CheckRegexp_userid_witness :
    Register ⟨true, [alice]⟩ exampleEnv
        ⟨.ok ⟨"bad id!".toList, "b@example.com".toList, "pw".toList, "B".toList⟩,
          fun _ => none⟩ = .ok (invaildUserid, ⟨true, [alice]⟩) ∧
    CheckRegexp useridPattern "bad id!".toList = true ∧
    useridPolicy.MatchWhole "bad id!".toList = false :=
  ⟨((C9_CheckRegexp_userid "bad id!".toList).2.2.2 ⟨true, [alice]⟩ exampleEnv
      ⟨.ok ⟨"bad id!".toList, "b@example.com".toList, "pw".toList, "B".toList⟩, fun _ => none⟩
      ⟨"bad id!".toList, "b@example.com".toList, "pw".toList, "B".toList⟩ rfl rfl rfl).2
      (by decide),
    by decide,
    ((C9_CheckRegexp_userid "bad id!".toList).2.1 (by decide)).1 (by decide)⟩

/-! ## The middleware -/

/-- C10 fails on the code: on the header value Bearer, with no blank after it,
the split header has one element and the middleware indexes its second, a
runtime panic with index 1 out of range of length 1, in every environment. This
is the one header on which the middleware panics; a token that reaches the next
handler is of an RSA method and valid. -/
theorem C10_JWTAuthentication_bearer_alone (env : Env) (AuthorizationHeader : GoString) :
    JWTAuthentication env "Bearer".toList = .error (.indexOutOfRange 1 1) ∧
    ((∃ pn, JWTAuthentication env AuthorizationHeader = .error pn) ↔
      AuthorizationHeader = "Bearer".toList) ∧
    (∀ token, JWTAuthentication env AuthorizationHeader = .ok (.next token) →
      token.methodIsRSA = true ∧ token.Valid = true) := by
  have h1 : JWTAuthentication env "Bearer".toList = .error (.indexOutOfRange 1 1) := rfl
  refine ⟨h1, ⟨?_, ?_⟩, ?_⟩
  · rintro ⟨pn, hpn⟩
    unfold JWTAuthentication at hpn
    simp only [] at hpn
    cases hs : Split AuthorizationHeader ' ' with
    | nil => exact absurd hs (Split_ne_nil _ _)
    | cons s0 rest =>
      rw [hs] at hpn
      simp only [List.getElem?_cons_zero] at hpn
      by_cases h0 : s0 = "Bearer".toList
      · cases rest with
        | nil => rw [h0] at hs; exact Split_singleton _ _ _ hs
        | cons s1 rest' =>
          rw [if_neg (by simpa using h0)] at hpn
          simp only [List.getElem?_cons_succ, List.getElem?_cons_zero] at hpn
          rcases jwtParse_cases env s1 (fun token =>
            if token.methodIsRSA = false then .error (.wrapped "Unexpected signing method")
            else LookupPublicKey env) with ⟨t, e, hj⟩ | ⟨t, key, hj, hval, _, _⟩
          · rw [hj] at hpn; cases t <;> simp at hpn
          · rw [hj] at hpn
            simp only [hval, Bool.true_eq_false, if_false] at hpn
            cases hpn
      · rw [if_pos (by simpa using h0)] at hpn
        cases hpn
  · intro h
    rw [h]
    exact ⟨_, h1⟩
  · intro token ht
    unfold JWTAuthentication at ht
    simp only [] at ht
    cases hs : Split AuthorizationHeader ' ' with
    | nil => exact absurd hs (Split_ne_nil _ _)
    | cons s0 rest =>
      rw [hs] at ht
      simp only [List.getElem?_cons_zero] at ht
      by_cases h0 : s0 = "Bearer".toList
      · rw [if_neg (by simpa using h0)] at ht
        cases rest with
        | nil => simp at ht
        | cons s1 rest' =>
          simp only [List.getElem?_cons_succ, List.getElem?_cons_zero] at ht
          rcases jwtParse_cases env s1 (fun token =>
            if token.methodIsRSA = false then .error (.wrapped "Unexpected signing method")
            else LookupPublicKey env) with ⟨t, e, hj⟩ | ⟨t, key, hj, hval, hkey, _⟩
          · rw [hj] at ht; cases t <;> simp at ht
          · rw [hj] at ht
            simp only [hval, Bool.true_eq_false, if_false, Except.ok.injEq,
              Reply.next.injEq] at ht
            subst ht
            refine ⟨?_, hval⟩
            simp only [] at hkey
            by_contra hm
            have hm' : t.methodIsRSA = false := by simpa using hm
            rw [if_pos hm'] at hkey
            cases hkey
      · rw [if_pos (by simpa using h0)] at ht
        cases ht

end Persona
